import Mathlib

/-!
MIPT-MIPS: instruction executors and the memory stage.

A shallow embedding of `src/simulator/mips/mips_instr.h` (the executors of
`MIPSInstr`) and of `src/simulator/modules/mem/mem.cpp` (`Mem<ISA>::clock`).

Machine integers are natural numbers kept below `2 ^ w`; a conversion to a
signed type is the integer read from the two's-complement pattern, and a
conversion back to an unsigned type is reduction modulo `2 ^ w`.
-/

namespace MiptMips

/-! ## Integer conversions -/

/-- Conversion `static_cast<int32>` of an unsigned value: the signed reading of
its low 32 bits. -/
def to_int32 (v : Nat) : Int :=
  if v % 2 ^ 32 < 2 ^ 31 then ((v % 2 ^ 32 : Nat) : Int) else ((v % 2 ^ 32 : Nat) : Int) - 2 ^ 32

/-- Conversion of an unsigned value to `int16` (the implicit conversion at a call
of `sign_extend`): the signed reading of its low 16 bits. -/
def to_int16 (v : Nat) : Int :=
  if v % 2 ^ 16 < 2 ^ 15 then ((v % 2 ^ 16 : Nat) : Int) else ((v % 2 ^ 16 : Nat) : Int) - 2 ^ 16

/-- Conversion `static_cast<uint32>` of an integer: reduction modulo `2 ^ 32`. -/
def to_uint32 (i : Int) : Nat := (i % 2 ^ 32).toNat

/-- Conversion `static_cast<uint64>` of an integer: reduction modulo `2 ^ 64`. -/
def to_uint64 (i : Int) : Nat := (i % 2 ^ 64).toNat

/-- The function `int32 sign_extend(int16 v)`: a value-preserving widening. -/
def sign_extend (v : Int) : Int := v

/-- The function `uint32 zero_extend(uint16 v)`; the argument is converted to
`uint16` at the call. -/
def zero_extend (v : Nat) : Nat := v % 2 ^ 16

/-- The two instantiations `T = int32` and `T = uint32` of the arithmetic
templates. -/
inductive IntType where
  | int32
  | uint32
  deriving DecidableEq, Repr

/-- The value an argument of type `T` holds when a `uint32` operand is passed
for it. -/
def IntType.read : IntType → Nat → Int
  | .int32, v => to_int32 v
  | .uint32, v => ((v % 2 ^ 32 : Nat) : Int)

/-! ## Free helper functions of `mips_instr.h` -/

/-- The template `align_up<N, T>` at `T = uint32`: the sum with `(1ull << N) - 1`
and both shifts are carried out in 64 bits, and the result is converted back
to `uint32`. -/
def align_up (N : Nat) (value : Nat) : Nat :=
  ((((value % 2 ^ 32 + ((1 <<< N) % 2 ^ 64 - 1)) % 2 ^ 64) >>> N) <<< N) % 2 ^ 64 % 2 ^ 32

/-- The template `mips_multiplication<T>`: both operands are converted to
`uint64` and multiplied in 64 bits. -/
def mips_multiplication (T : IntType) (x y : Nat) : Nat :=
  (to_uint64 (T.read x) * to_uint64 (T.read y)) % 2 ^ 64

/-- The template `mips_division<T>`: zero for a zero divisor, otherwise the
quotient and remainder of the widened operands (C++ division truncates toward
zero), each converted to `uint32`, the remainder stored in the upper half. -/
def mips_division (T : IntType) (x y : Nat) : Nat :=
  if T.read y = 0 then 0
  else
    let x1 := T.read x
    let y1 := T.read y
    to_uint32 (Int.tdiv x1 y1) ||| ((to_uint32 (Int.tmod x1 y1) <<< 32) % 2 ^ 64)

/-- The operator `~` on a `w`-bit unsigned value. -/
def bit_not (w : Nat) (v : Nat) : Nat := 2 ^ w - 1 - v % 2 ^ w

/-- The result of an `int32` addition or subtraction whose exact value is `i`.
Signed overflow, which the C++ standard leaves undefined, is taken as the
two's-complement wrap-around of the generated code. -/
def wrap_int32 (i : Int) : Int := to_int32 (to_uint32 i)

/-- The loop of `count_zeros`: `i` is the probe bit, shifted right once per
iteration until it is 0; the loop is left early at the first set bit. -/
def count_zeros_loop (value i count : Nat) : Nat :=
  if i > 0 then
    if value &&& i ≠ 0 then count
    else count_zeros_loop value (i >>> 1) ((count + 1) % 2 ^ 32)
  else count
termination_by i
decreasing_by
  simp_wf
  rw [Nat.shiftRight_eq_div_pow]
  omega

/-- The function `count_zeros`. -/
def count_zeros (value : Nat) : Nat := count_zeros_loop value 0x80000000 0

/-- Modelled from the spec: `bitmask<uint32>` of `infra/macro.h` is not among the
sources; `bitmask(n)` is the value with the `n` low bits set. -/
def bitmask (n : Nat) : Nat := (2 ^ n - 1) % 2 ^ 32

/-- Modelled from the spec: `arithmetic_rs` of `infra/macro.h` is not among the
sources; it is the arithmetic right shift of a 32-bit value, which preserves
the sign. -/
def arithmetic_rs (value : Nat) (shamt : Nat) : Nat :=
  to_uint32 (to_int32 value / 2 ^ shamt)

/-! ## The instruction record -/

/-- The enumeration `MIPSInstr::OperationType`. -/
inductive OperationType where
  | OUT_R_ARITHM | OUT_R_ACCUM | OUT_R_DIVMULT | OUT_R_CONDM | OUT_R_SHIFT
  | OUT_R_SHAMT | OUT_R_JUMP | OUT_R_JUMP_LINK | OUT_R_SPECIAL | OUT_R_SUBTR
  | OUT_R_TRAP | OUT_R_MFLO | OUT_R_MTLO | OUT_R_MFHI | OUT_R_MTHI
  | OUT_I_ARITHM | OUT_I_BRANCH | OUT_I_BRANCH_0 | OUT_RI_BRANCH_0 | OUT_RI_TRAP
  | OUT_I_LOAD | OUT_I_LOADU | OUT_I_LOADR | OUT_I_LOADL | OUT_I_CONST
  | OUT_I_STORE | OUT_I_STOREL | OUT_I_STORER | OUT_J_JUMP | OUT_J_JUMP_LINK
  | OUT_RI_BRANCH_LINK | OUT_J_SPECIAL | OUT_SP2_COUNT | OUT_UNKNOWN
  deriving DecidableEq, Repr

/-- The enumeration `MIPSInstr::TrapType`. -/
inductive TrapType where
  | NO_TRAP
  | EXPLICIT_TRAP
  deriving DecidableEq, Repr

/-- Modelled from the spec: `mips_register/mips_register.h` is not among the
sources. A register identifier is one of the 32 general-purpose registers, HI
or LO (the data model of the specification); `MIPSRegister::zero` is GPR 0. -/
inductive MIPSRegister where
  | gpr (n : Fin 32)
  | mips_hi
  | mips_lo
  deriving DecidableEq, Repr

/-- The register `MIPSRegister::zero`. -/
def MIPSRegister.zero : MIPSRegister := .gpr 0

/-- The predicate `MIPSRegister::is_mips_hi`. -/
def MIPSRegister.is_mips_hi : MIPSRegister → Bool
  | .mips_hi => true
  | _ => false

/-- The data members of `MIPSInstr`. The address type `Addr` is 32 bits wide
(`PC`, `new_PC` and `mem_addr` are initialised with `NO_VAL32`); `v_dst` is a
`uint64`, `shamt` a `uint16`, the other value fields are `uint32`. -/
structure MIPSInstr where
  operation : OperationType := .OUT_UNKNOWN
  trap : TrapType := .NO_TRAP
  raw : Nat := 0
  src1 : MIPSRegister := MIPSRegister.zero
  src2 : MIPSRegister := MIPSRegister.zero
  dst : MIPSRegister := MIPSRegister.zero
  v_imm : Nat := 0
  v_src1 : Nat := 0
  v_src2 : Nat := 0
  v_dst : Nat := 0
  shamt : Nat := 0
  mem_addr : Nat := 0
  mem_size : Nat := 0
  complete : Bool := false
  writes_dst : Bool := true
  _is_jump_taken : Bool := false
  new_PC : Nat := 0
  PC : Nat := 0
  deriving DecidableEq, Repr

/-- Every field holds a value of its machine type. -/
def MIPSInstr.wf (s : MIPSInstr) : Prop :=
  s.raw < 2 ^ 32 ∧ s.v_imm < 2 ^ 32 ∧ s.v_src1 < 2 ^ 32 ∧ s.v_src2 < 2 ^ 32 ∧
  s.v_dst < 2 ^ 64 ∧ s.shamt < 2 ^ 16 ∧ s.mem_addr < 2 ^ 32 ∧ s.mem_size < 2 ^ 32 ∧
  s.new_PC < 2 ^ 32 ∧ s.PC < 2 ^ 32

instance (s : MIPSInstr) : Decidable s.wf := by
  unfold MIPSInstr.wf; infer_instance

/-- The type `Predicate` of the source, a `const` member function returning
`bool`. -/
abbrev Predicate := MIPSInstr → Bool

namespace MIPSInstr

/-! ### Predicate helpers -/

def lez (s : MIPSInstr) : Bool := decide (to_int32 s.v_src1 ≤ 0)
def gez (s : MIPSInstr) : Bool := decide (to_int32 s.v_src1 ≥ 0)
def ltz (s : MIPSInstr) : Bool := decide (to_int32 s.v_src1 < 0)
def gtz (s : MIPSInstr) : Bool := decide (to_int32 s.v_src1 > 0)

def eq (s : MIPSInstr) : Bool := decide (s.v_src1 = s.v_src2)
def ne (s : MIPSInstr) : Bool := decide (s.v_src1 ≠ s.v_src2)
def geu (s : MIPSInstr) : Bool := decide (s.v_src1 ≥ s.v_src2)
def ltu (s : MIPSInstr) : Bool := decide (s.v_src1 < s.v_src2)
def ge (s : MIPSInstr) : Bool := decide (to_int32 s.v_src1 ≥ to_int32 s.v_src2)
def lt (s : MIPSInstr) : Bool := decide (to_int32 s.v_src1 < to_int32 s.v_src2)

def eqi (s : MIPSInstr) : Bool := decide (to_int32 s.v_src1 = sign_extend (to_int16 s.v_imm))
def nei (s : MIPSInstr) : Bool := decide (to_int32 s.v_src1 ≠ sign_extend (to_int16 s.v_imm))
def lti (s : MIPSInstr) : Bool := decide (to_int32 s.v_src1 < sign_extend (to_int16 s.v_imm))
def gei (s : MIPSInstr) : Bool := decide (to_int32 s.v_src1 ≥ sign_extend (to_int16 s.v_imm))

def ltiu (s : MIPSInstr) : Bool := decide (s.v_src1 < to_uint32 (sign_extend (to_int16 s.v_imm)))
def geiu (s : MIPSInstr) : Bool := decide (s.v_src1 ≥ to_uint32 (sign_extend (to_int16 s.v_imm)))

/-! ### Executors -/

def execute_mult (s : MIPSInstr) : MIPSInstr :=
  { s with v_dst := mips_multiplication .int32 s.v_src1 s.v_src2 }

def execute_multu (s : MIPSInstr) : MIPSInstr :=
  { s with v_dst := mips_multiplication .uint32 s.v_src1 s.v_src2 }

def execute_div (s : MIPSInstr) : MIPSInstr :=
  { s with v_dst := mips_division .int32 s.v_src1 s.v_src2 }

def execute_divu (s : MIPSInstr) : MIPSInstr :=
  { s with v_dst := mips_division .uint32 s.v_src1 s.v_src2 }

/-- The template `execute_branch<p>`: the predicate is evaluated on the entry
state; the displacement `sign_extend(v_imm) * 4` is an `int32` that is
converted to `Addr` by the compound assignment. -/
def execute_branch (p : Predicate) (s : MIPSInstr) : MIPSInstr :=
  let s1 := { s with _is_jump_taken := p s }
  if s1._is_jump_taken then
    { s1 with new_PC := (s1.new_PC + to_uint32 (sign_extend (to_int16 s1.v_imm) * 4)) % 2 ^ 32 }
  else s1

def execute_jump (target : Nat) (s : MIPSInstr) : MIPSInstr :=
  { s with _is_jump_taken := true, new_PC := target }

def execute_j (s : MIPSInstr) : MIPSInstr :=
  execute_jump ((s.PC &&& 0xf0000000) ||| ((s.v_imm <<< 2) % 2 ^ 32)) s

def execute_jr (s : MIPSInstr) : MIPSInstr :=
  execute_jump (align_up 2 s.v_src1) s

def execute_jal (s : MIPSInstr) : MIPSInstr :=
  let s1 := { s with v_dst := s.new_PC }
  execute_jump ((s1.PC &&& 0xf0000000) ||| ((s1.v_imm <<< 2) % 2 ^ 32)) s1

def execute_jalr (s : MIPSInstr) : MIPSInstr :=
  let s1 := { s with v_dst := s.new_PC }
  execute_jump (align_up 2 s1.v_src1) s1

/-- The template `execute_branch_and_link<p>`. -/
def execute_branch_and_link (p : Predicate) (s : MIPSInstr) : MIPSInstr :=
  let s1 := { s with _is_jump_taken := p s }
  if s1._is_jump_taken then
    let s2 := { s1 with v_dst := s1.new_PC }
    { s2 with new_PC := (s2.new_PC + to_uint32 (sign_extend (to_int16 s2.v_imm) * 4)) % 2 ^ 32 }
  else s1

def execute_add (s : MIPSInstr) : MIPSInstr :=
  { s with v_dst := to_uint64 (wrap_int32 (to_int32 s.v_src1 + to_int32 s.v_src2)) }

def execute_sub (s : MIPSInstr) : MIPSInstr :=
  { s with v_dst := to_uint64 (wrap_int32 (to_int32 s.v_src1 - to_int32 s.v_src2)) }

def execute_addi (s : MIPSInstr) : MIPSInstr :=
  { s with v_dst := to_uint64 (wrap_int32 (to_int32 s.v_src1 + sign_extend (to_int16 s.v_imm))) }

def execute_addu (s : MIPSInstr) : MIPSInstr :=
  { s with v_dst := (s.v_src1 + s.v_src2) % 2 ^ 32 }

def execute_subu (s : MIPSInstr) : MIPSInstr :=
  { s with v_dst := to_uint32 ((s.v_src1 : Int) - (s.v_src2 : Int)) }

def execute_addiu (s : MIPSInstr) : MIPSInstr :=
  { s with v_dst := (s.v_src1 + to_uint32 (sign_extend (to_int16 s.v_imm))) % 2 ^ 32 }

def execute_move (s : MIPSInstr) : MIPSInstr :=
  { s with v_dst := s.v_src1 }

/-- The executors of the shifts by `shamt`, the 5-bit field of the instruction
word: the `uint32` operand is shifted and the low 32 bits are kept. -/
def execute_sll (s : MIPSInstr) : MIPSInstr :=
  { s with v_dst := (s.v_src1 <<< s.shamt) % 2 ^ 32 }

def execute_srl (s : MIPSInstr) : MIPSInstr :=
  { s with v_dst := s.v_src1 >>> s.shamt }

def execute_sra (s : MIPSInstr) : MIPSInstr :=
  { s with v_dst := arithmetic_rs s.v_src1 s.shamt }

/-- The executor `execute_sllv`, `v_src1 << v_src2` on `uint32` operands. The
amount is any 32-bit value; C++ leaves a shift of a 32-bit value by 32 or more
undefined, and the 32-bit shift of the generated code takes the amount modulo
32, which is what the model does. -/
def execute_sllv (s : MIPSInstr) : MIPSInstr :=
  { s with v_dst := (s.v_src1 <<< (s.v_src2 % 32)) % 2 ^ 32 }

/-- The executor `execute_srlv`, `v_src1 >> v_src2` on `uint32` operands, with
the amount taken modulo 32 as in `execute_sllv`. -/
def execute_srlv (s : MIPSInstr) : MIPSInstr :=
  { s with v_dst := s.v_src1 >>> (s.v_src2 % 32) }

def execute_srav (s : MIPSInstr) : MIPSInstr :=
  { s with v_dst := arithmetic_rs s.v_src1 s.v_src2 }

def execute_lui (s : MIPSInstr) : MIPSInstr :=
  { s with v_dst := (to_uint32 (sign_extend (to_int16 s.v_imm)) <<< 0x10) % 2 ^ 32 }

def execute_and (s : MIPSInstr) : MIPSInstr :=
  { s with v_dst := s.v_src1 &&& s.v_src2 }

def execute_or (s : MIPSInstr) : MIPSInstr :=
  { s with v_dst := s.v_src1 ||| s.v_src2 }

def execute_xor (s : MIPSInstr) : MIPSInstr :=
  { s with v_dst := s.v_src1 ^^^ s.v_src2 }

/-- The executor `execute_nor`: the OR is converted to `uint64` before `~`. -/
def execute_nor (s : MIPSInstr) : MIPSInstr :=
  { s with v_dst := bit_not 64 (s.v_src1 ||| s.v_src2) }

def execute_andi (s : MIPSInstr) : MIPSInstr :=
  { s with v_dst := s.v_src1 &&& zero_extend s.v_imm }

def execute_ori (s : MIPSInstr) : MIPSInstr :=
  { s with v_dst := s.v_src1 ||| zero_extend s.v_imm }

def execute_xori (s : MIPSInstr) : MIPSInstr :=
  { s with v_dst := s.v_src1 ^^^ zero_extend s.v_imm }

def execute_movn (s : MIPSInstr) : MIPSInstr :=
  let s1 := s.execute_move
  { s1 with writes_dst := decide (s1.v_src2 ≠ 0) }

def execute_movz (s : MIPSInstr) : MIPSInstr :=
  let s1 := s.execute_move
  { s1 with writes_dst := decide (s1.v_src2 = 0) }

/-- The template `execute_set<p>`. -/
def execute_set (p : Predicate) (s : MIPSInstr) : MIPSInstr :=
  { s with v_dst := (p s).toNat }

/-- The template `execute_trap<p>`. -/
def execute_trap (p : Predicate) (s : MIPSInstr) : MIPSInstr :=
  if p s then { s with trap := .EXPLICIT_TRAP } else s

def execute_clo (s : MIPSInstr) : MIPSInstr :=
  { s with v_dst := count_zeros (bit_not 32 s.v_src1) }

def execute_clz (s : MIPSInstr) : MIPSInstr :=
  { s with v_dst := count_zeros s.v_src1 }

def execute_syscall (s : MIPSInstr) : MIPSInstr := s

def execute_break (s : MIPSInstr) : MIPSInstr := s

def calculate_load_addr (s : MIPSInstr) : MIPSInstr :=
  { s with mem_addr := (s.v_src1 + to_uint32 (sign_extend (to_int16 s.v_imm))) % 2 ^ 32 }

def calculate_store_addr (s : MIPSInstr) : MIPSInstr :=
  { s with mem_addr := (s.v_src1 + to_uint32 (sign_extend (to_int16 s.v_imm))) % 2 ^ 32 }

/-- The executors of the instructions that are neither jumps nor branches, the
two templates at the predicates `p` (of `execute_set`) and `q` (of
`execute_trap`). -/
def non_jump_executors (p q : Predicate) : List (MIPSInstr → MIPSInstr) :=
  [execute_add, execute_sub, execute_addi, execute_addu, execute_subu, execute_addiu,
   execute_mult, execute_multu, execute_div, execute_divu,
   execute_move, execute_movn, execute_movz,
   execute_sll, execute_srl, execute_sra, execute_sllv, execute_srlv, execute_srav,
   execute_lui, execute_and, execute_or, execute_xor, execute_nor,
   execute_andi, execute_ori, execute_xori,
   execute_set p, execute_trap q, execute_clo, execute_clz,
   execute_syscall, execute_break, calculate_load_addr, calculate_store_addr]

/-! ### Queries -/

def is_jump (s : MIPSInstr) : Bool :=
  s.operation == .OUT_J_JUMP ||
  s.operation == .OUT_J_JUMP_LINK ||
  s.operation == .OUT_RI_BRANCH_LINK ||
  s.operation == .OUT_R_JUMP ||
  s.operation == .OUT_R_JUMP_LINK ||
  s.operation == .OUT_I_BRANCH_0 ||
  s.operation == .OUT_RI_BRANCH_0 ||
  s.operation == .OUT_I_BRANCH

def is_jump_taken (s : MIPSInstr) : Bool := s._is_jump_taken

def is_halt (s : MIPSInstr) : Bool := s.is_jump && s.new_PC == 0

def has_trap (s : MIPSInstr) : Bool := s.trap != .NO_TRAP

def get_v_dst (s : MIPSInstr) : Nat := s.v_dst

def get_new_PC (s : MIPSInstr) : Nat := s.new_PC

def get_PC (s : MIPSInstr) : Nat := s.PC

def get_bypassing_data (s : MIPSInstr) : Nat :=
  if s.dst.is_mips_hi then (s.v_dst <<< 32) % 2 ^ 64 else s.v_dst

/-- The function `get_lwrl_mask`, over the helper `bitmask<uint32>` it calls
(which is not among the sources); the argument of `bitmask` is computed in
unsigned 32-bit arithmetic. -/
def get_lwrl_mask (bitmask : Nat → Nat) (s : MIPSInstr) : Nat :=
  bitmask ((((4 + 2 ^ 32 - s.mem_addr % 4) % 2 ^ 32) * 8) % 2 ^ 32)

end MIPSInstr

/-- The wording `align_down_to_4` of the specification for the target of a
register jump: the value with its two low bits cleared. It is not a function of
the source; the executors call `align_up`. -/
def spec_align_down_to_4 (v : Nat) : Nat := v / 4 * 4

/-! ## The memory stage (`mem.cpp`) -/

/-- The operations `Mem<ISA>::clock` uses of its template parameter: the member
functions of the instruction type `Instr` it calls, and `load_store` of the
functional memory, which receives a pointer to the instruction and may update
both the memory and the instruction. -/
structure ISA (Instr BPInterface Memory : Type) where
  is_jump : Instr → Bool
  is_misprediction : Instr → Bool
  get_new_PC : Instr → Nat
  get_bp_upd : Instr → BPInterface
  get_bypassing_data : Instr → Nat
  load_store : Memory → Instr → Memory × Instr

/-- A value written to one of the write ports created in the constructor of
`Mem`, named by the port key. -/
inductive PortWrite (Instr BPInterface : Type) where
  | MEMORY_2_WRITEBACK (instr : Instr)
  | MEMORY_2_ALL_FLUSH (value : Bool)
  | MEMORY_2_FETCH_TARGET (target : Nat)
  | MEMORY_2_FETCH (upd : BPInterface)
  | MEMORY_2_EXECUTE_BYPASS (data : Nat)
  | MEMORY_2_BYPASSING_UNIT_FLUSH_NOTIFY (instr : Instr)
  deriving DecidableEq, Repr

/-- The observable actions of one call of `clock`, in program order: a `read`
of the two read ports (`rp_flush` reads `MEMORY_2_ALL_FLUSH`, `rp_datapath`
reads `EXECUTE_2_MEMORY`), a `write` to a write port, a call of `load_store`. -/
inductive Event (Instr BPInterface : Type) where
  | read_flush (cycle : Nat)
  | read_datapath (cycle : Nat)
  | write (w : PortWrite Instr BPInterface) (cycle : Nat)
  | load_store (instr : Instr)
  deriving DecidableEq, Repr

/-- What `clock` finds: for each cycle the value deliverable on each read port
(`none` when `is_ready(cycle)` is false) and the functional memory. -/
structure MemIn (Instr Memory : Type) where
  rp_flush : Nat → Option Bool
  rp_datapath : Nat → Option Instr
  memory : Memory

/-- What `clock` leaves: the actions it performed and the functional memory. -/
structure MemOut (Instr BPInterface Memory : Type) where
  trace : List (Event Instr BPInterface)
  memory : Memory

/-- The value of `is_flush` in `clock`,
`rp_flush->is_ready( cycle) && rp_flush->read( cycle)`. -/
def Mem.is_flush {Instr Memory : Type} (inp : MemIn Instr Memory) (cycle : Nat) : Bool :=
  match inp.rp_flush cycle with
  | some b => b
  | none => false

/-- The function `Mem<ISA>::clock`. The log stream is not modelled. -/
def Mem.clock {Instr BPInterface Memory : Type} (isa : ISA Instr BPInterface Memory)
    (inp : MemIn Instr Memory) (cycle : Nat) : MemOut Instr BPInterface Memory :=
  let t0 : List (Event Instr BPInterface) :=
    match inp.rp_flush cycle with
    | some _ => [.read_flush cycle]
    | none => []
  if Mem.is_flush inp cycle then
    match inp.rp_datapath cycle with
    | some instr =>
      { trace := t0 ++ [.read_datapath cycle,
                        .write (.MEMORY_2_BYPASSING_UNIT_FLUSH_NOTIFY instr) cycle],
        memory := inp.memory }
    | none => { trace := t0, memory := inp.memory }
  else
    match inp.rp_datapath cycle with
    | none => { trace := t0, memory := inp.memory }
    | some instr =>
      let t1 := t0 ++ [.read_datapath cycle]
      let t2 :=
        if isa.is_jump instr then
          let t := t1 ++ [.write (.MEMORY_2_FETCH (isa.get_bp_upd instr)) cycle]
          if isa.is_misprediction instr then
            t ++ [.write (.MEMORY_2_ALL_FLUSH true) cycle,
                  .write (.MEMORY_2_FETCH_TARGET (isa.get_new_PC instr)) cycle]
          else t
        else t1
      let r := isa.load_store inp.memory instr
      { trace := t2 ++ [.load_store instr,
                        .write (.MEMORY_2_EXECUTE_BYPASS (isa.get_bypassing_data r.2)) cycle,
                        .write (.MEMORY_2_WRITEBACK r.2) cycle],
        memory := r.1 }

/-- The values written to the ports, in order. -/
def writes {Instr BPInterface : Type} :
    List (Event Instr BPInterface) → List (PortWrite Instr BPInterface)
  | [] => []
  | .write w _ :: t => w :: writes t
  | _ :: t => writes t

/-- The arguments of the calls of `load_store`, in order. -/
def load_store_calls {Instr BPInterface : Type} : List (Event Instr BPInterface) → List Instr
  | [] => []
  | .load_store i :: t => i :: load_store_calls t
  | _ :: t => load_store_calls t

/-- The values written to `MEMORY_2_EXECUTE_BYPASS`, in order. -/
def bypass_values {Instr BPInterface : Type} : List (PortWrite Instr BPInterface) → List Nat
  | [] => []
  | .MEMORY_2_EXECUTE_BYPASS d :: t => d :: bypass_values t
  | _ :: t => bypass_values t

/-- The instructions written to `MEMORY_2_WRITEBACK`, in order. -/
def writeback_values {Instr BPInterface : Type} : List (PortWrite Instr BPInterface) → List Instr
  | [] => []
  | .MEMORY_2_WRITEBACK i :: t => i :: writeback_values t
  | _ :: t => writeback_values t

/-- The instructions written to `MEMORY_2_BYPASSING_UNIT_FLUSH_NOTIFY`, in
order. -/
def flush_notify_values {Instr BPInterface : Type} :
    List (PortWrite Instr BPInterface) → List Instr
  | [] => []
  | .MEMORY_2_BYPASSING_UNIT_FLUSH_NOTIFY i :: t => i :: flush_notify_values t
  | _ :: t => flush_notify_values t

/-- Modelled from the spec: the instruction type of the pipeline is not among
the sources. It is the functional instruction together with the prediction made
for it at fetch (predicted direction and predicted target). -/
structure PerfInstr where
  instr : MIPSInstr
  predicted_taken : Bool
  predicted_target : Nat
  deriving DecidableEq, Repr

/-- Modelled from the spec: `is_misprediction` is not among the sources; an
instruction is a misprediction when the predicted direction or the predicted
target differs from the actual one. -/
def PerfInstr.is_misprediction (i : PerfInstr) : Bool :=
  i.predicted_taken != i.instr.is_jump_taken || i.predicted_target != i.instr.get_new_PC

/-- Modelled from the spec: the branch-predictor update record, containing
`(PC, new_PC, is_jump_taken)`. -/
structure BPInterface where
  pc : Nat
  target : Nat
  is_taken : Bool
  deriving DecidableEq, Repr

/-- Modelled from the spec: `get_bp_upd` is not among the sources. -/
def PerfInstr.get_bp_upd (i : PerfInstr) : BPInterface :=
  { pc := i.instr.get_PC, target := i.instr.get_new_PC, is_taken := i.instr.is_jump_taken }

/-- The instantiation `Mem<MIPS>`, over a functional memory given by its
`load_store`. -/
def MIPS {Memory : Type} (load_store : Memory → PerfInstr → Memory × PerfInstr) :
    ISA PerfInstr BPInterface Memory :=
  { is_jump := fun i => i.instr.is_jump
    is_misprediction := PerfInstr.is_misprediction
    get_new_PC := fun i => i.instr.get_new_PC
    get_bp_upd := PerfInstr.get_bp_upd
    get_bypassing_data := fun i => i.instr.get_bypassing_data
    load_store := load_store }

/-- A `load_store` that performs no access and leaves the instruction as it
is: the memory stage has nothing to load or store for an instruction that is
neither a load nor a store. -/
def load_store_idle {Memory : Type} (m : Memory) (i : PerfInstr) : Memory × PerfInstr := (m, i)

/-- The instantiation `Mem<MIPS>` over a word-addressed memory on which no
access is performed. -/
def mips_idle : ISA PerfInstr BPInterface (Nat → Nat) := MIPS load_store_idle

/-- An `addu $3, $1, $2` at `0x400000`, executed (`new_PC = PC + 4`, not a jump,
not taken), for which the predictor had announced a taken branch to `0x400100`. -/
def addu_predicted_taken : PerfInstr :=
  { instr := { operation := .OUT_R_ARITHM, raw := 0x00221821,
               src1 := .gpr 1, src2 := .gpr 2, dst := .gpr 3,
               v_src1 := 5, v_src2 := 7, v_dst := 12, complete := true,
               PC := 0x400000, new_PC := 0x400004 },
    predicted_taken := true,
    predicted_target := 0x400100 }

/-- A cycle without flush signal in which `addu_predicted_taken` arrives from
Execute. -/
def arrival_without_flush : MemIn PerfInstr (Nat → Nat) :=
  { rp_flush := fun _ => none,
    rp_datapath := fun _ => some addu_predicted_taken,
    memory := fun _ => 0 }

/-- A cycle with a true flush signal in which `addu_predicted_taken` arrives
from Execute. -/
def arrival_under_flush : MemIn PerfInstr (Nat → Nat) :=
  { rp_flush := fun _ => some true,
    rp_datapath := fun _ => some addu_predicted_taken,
    memory := fun _ => 0 }

/-- A `beq $1, $2, 0x40` at `0x400000`, executed and taken to `0x400104`, for
which the predictor had announced the fall-through path. -/
def beq_predicted_not_taken : PerfInstr :=
  { instr := { operation := .OUT_I_BRANCH, raw := 0x10220040,
               src1 := .gpr 1, src2 := .gpr 2, v_imm := 0x40,
               v_src1 := 5, v_src2 := 5, complete := true, _is_jump_taken := true,
               PC := 0x400000, new_PC := 0x400104 },
    predicted_taken := false,
    predicted_target := 0x400004 }

/-- A cycle with a false flush signal in which `beq_predicted_not_taken` arrives
from Execute. -/
def arrival_of_branch : MemIn PerfInstr (Nat → Nat) :=
  { rp_flush := fun _ => some false,
    rp_datapath := fun _ => some beq_predicted_not_taken,
    memory := fun _ => 0 }

/-! ## Arithmetic lemmas -/

theorem to_uint32_lt (i : Int) : to_uint32 i < 2 ^ 32 := by
  unfold to_uint32
  have h := Int.emod_lt_of_pos i (show (0 : Int) < 2 ^ 32 by norm_num)
  have h0 := Int.emod_nonneg i (show (2 ^ 32 : Int) ≠ 0 by norm_num)
  omega

theorem to_uint32_cast (i : Int) : ((to_uint32 i : Nat) : Int) = i % 2 ^ 32 := by
  unfold to_uint32
  exact Int.toNat_of_nonneg (Int.emod_nonneg i (by norm_num))

/-- Packing a 32-bit low half and a 32-bit high half. -/
theorem pack_eq (lo hi : Nat) (hlo : lo < 2 ^ 32) (hhi : hi < 2 ^ 32) :
    lo ||| ((hi <<< 32) % 2 ^ 64) = hi * 2 ^ 32 + lo := by
  have h1 : (hi <<< 32) % 2 ^ 64 = 2 ^ 32 * hi := by
    rw [Nat.shiftLeft_eq, Nat.mod_eq_of_lt (by omega)]; ring
  rw [h1, Nat.or_comm, ← Nat.mul_add_lt_is_or hlo hi]; ring

theorem to_uint64_cast (i : Int) : ((to_uint64 i : Nat) : Int) = i % 2 ^ 64 := by
  unfold to_uint64
  exact Int.toNat_of_nonneg (Int.emod_nonneg i (by norm_num))

theorem to_int32_emod (v : Nat) : to_int32 v % 2 ^ 32 = (v : Int) % 2 ^ 32 := by
  unfold to_int32
  split <;> omega

theorem to_int32_eq_zero (v : Nat) (hv : v < 2 ^ 32) : to_int32 v = 0 ↔ v = 0 := by
  unfold to_int32
  split <;> omega

/-- The 64-bit product of the converted operands is the conversion of the exact
product. -/
theorem to_uint64_mul (a b : Int) :
    (to_uint64 a * to_uint64 b) % 2 ^ 64 = to_uint64 (a * b) := by
  have h : (((to_uint64 a * to_uint64 b) % 2 ^ 64 : Nat) : Int) = ((to_uint64 (a * b) : Nat) : Int) := by
    simp only [Int.natCast_mod, Nat.cast_mul, Nat.cast_pow, Nat.cast_ofNat, to_uint64_cast]
    exact (Int.mul_emod a b _).symm
  exact_mod_cast h

/-- The low 32 bits of the converted product depend on the operands modulo
`2 ^ 32` only. -/
theorem to_uint64_mul_low (x y : Nat) :
    to_uint64 (to_int32 x * to_int32 y) % 2 ^ 32 = (x * y) % 2 ^ 32 := by
  have h : ((to_uint64 (to_int32 x * to_int32 y) % 2 ^ 32 : Nat) : Int)
      = (((x * y) % 2 ^ 32 : Nat) : Int) := by
    simp only [Int.natCast_mod, Nat.cast_mul, Nat.cast_pow, Nat.cast_ofNat, to_uint64_cast]
    rw [Int.emod_emod_of_dvd _ (by norm_num : (2 ^ 32 : Int) ∣ 2 ^ 64),
      Int.mul_emod, to_int32_emod, to_int32_emod, ← Int.mul_emod]
  exact_mod_cast h

theorem mips_division_unpack (T : IntType) (x y : Nat) (hy : T.read y ≠ 0) :
    mips_division T x y
      = to_uint32 (Int.tmod (T.read x) (T.read y)) * 2 ^ 32
        + to_uint32 (Int.tdiv (T.read x) (T.read y)) := by
  unfold mips_division
  rw [if_neg hy]
  exact pack_eq _ _ (to_uint32_lt _) (to_uint32_lt _)

/-! ## Division and multiplication -/

/-- C1: for every dividend `x`, `mips_division<int32>(x, 0)` and
`mips_division<uint32>(x, 0)` return 0; hence `execute_div` and `execute_divu`
with `v_src2 = 0` leave `v_dst = 0`, so LO (the low 32 bits) and HI (the high
32 bits) are both 0, and they leave the trap flag unchanged: `has_trap` stays
false if it was false. -/
theorem div_by_zero_yields_zero (x : Nat) (s : MIPSInstr) (h : s.v_src2 = 0) :
    mips_division .int32 x 0 = 0 ∧ mips_division .uint32 x 0 = 0 ∧
    s.execute_div.get_v_dst = 0 ∧ s.execute_divu.get_v_dst = 0 ∧
    s.execute_div.get_v_dst % 2 ^ 32 = 0 ∧ s.execute_div.get_v_dst / 2 ^ 32 = 0 ∧
    s.execute_divu.get_v_dst % 2 ^ 32 = 0 ∧ s.execute_divu.get_v_dst / 2 ^ 32 = 0 ∧
    s.execute_div.trap = s.trap ∧ s.execute_divu.trap = s.trap ∧
    (s.has_trap = false → s.execute_div.has_trap = false ∧ s.execute_divu.has_trap = false) := by
  have h1 : ∀ v, mips_division .int32 v 0 = 0 := fun v => by
    simp [mips_division, IntType.read, to_int32]
  have h2 : ∀ v, mips_division .uint32 v 0 = 0 := fun v => by
    simp [mips_division, IntType.read]
  have hd : s.execute_div.get_v_dst = 0 := by
    simp only [MIPSInstr.execute_div, MIPSInstr.get_v_dst, h]; exact h1 _
  have hu : s.execute_divu.get_v_dst = 0 := by
    simp only [MIPSInstr.execute_divu, MIPSInstr.get_v_dst, h]; exact h2 _
  refine ⟨h1 x, h2 x, hd, hu, ?_, ?_, ?_, ?_, rfl, rfl, fun ht => ⟨ht, ht⟩⟩
  · rw [hd]; rfl
  · rw [hd]; rfl
  · rw [hu]; rfl
  · rw [hu]; rfl

/-- Witness for C1: `div` and `divu` of 7 by 0. -/
theorem div_by_zero_yields_zero_witness :
    ({ v_src1 := 7, v_src2 := 0 } : MIPSInstr).v_src2 = 0 ∧
    mips_division .int32 7 0 = 0 ∧
    ({ v_src1 := 7, v_src2 := 0 } : MIPSInstr).execute_div.get_v_dst = 0 ∧
    ({ v_src1 := 7, v_src2 := 0 } : MIPSInstr).execute_divu.get_v_dst = 0 :=
  have h := div_by_zero_yields_zero 7 { v_src1 := 7, v_src2 := 0 } rfl
  ⟨rfl, h.1, h.2.2.1, h.2.2.2.1⟩

/-- C2: for all 32-bit `x`, `y`, `mips_multiplication<int32>(x, y)`
(`execute_mult`) is the 64-bit two's-complement encoding of the exact product
of `x` and `y` read as signed 32-bit integers, and
`mips_multiplication<uint32>(x, y)` (`execute_multu`) is the exact product of
`x` and `y` read as unsigned integers; in both cases the low 32 bits of `v_dst`
(LO) are `(x * y) mod 2^32`, the high 32 bits (HI) being the upper half of
that 64-bit product. -/
theorem mult_exact_product (s : MIPSInstr) (h1 : s.v_src1 < 2 ^ 32) (h2 : s.v_src2 < 2 ^ 32) :
    mips_multiplication .int32 s.v_src1 s.v_src2
      = to_uint64 (to_int32 s.v_src1 * to_int32 s.v_src2) ∧
    mips_multiplication .uint32 s.v_src1 s.v_src2 = s.v_src1 * s.v_src2 ∧
    s.execute_mult.get_v_dst = to_uint64 (to_int32 s.v_src1 * to_int32 s.v_src2) ∧
    s.execute_multu.get_v_dst = s.v_src1 * s.v_src2 ∧
    s.execute_mult.get_v_dst % 2 ^ 32 = (s.v_src1 * s.v_src2) % 2 ^ 32 ∧
    s.execute_multu.get_v_dst % 2 ^ 32 = (s.v_src1 * s.v_src2) % 2 ^ 32 ∧
    s.execute_mult.get_v_dst / 2 ^ 32
      = to_uint64 (to_int32 s.v_src1 * to_int32 s.v_src2) / 2 ^ 32 ∧
    s.execute_multu.get_v_dst / 2 ^ 32 = (s.v_src1 * s.v_src2) / 2 ^ 32 := by
  have hs : mips_multiplication .int32 s.v_src1 s.v_src2
      = to_uint64 (to_int32 s.v_src1 * to_int32 s.v_src2) := by
    unfold mips_multiplication
    exact to_uint64_mul _ _
  have hu : mips_multiplication .uint32 s.v_src1 s.v_src2 = s.v_src1 * s.v_src2 := by
    have hb : s.v_src1 * s.v_src2 < 2 ^ 64 := by
      calc s.v_src1 * s.v_src2 < 2 ^ 32 * 2 ^ 32 :=
            Nat.mul_lt_mul_of_lt_of_le h1 (Nat.le_of_lt h2) (by norm_num)
        _ = 2 ^ 64 := by norm_num
    unfold mips_multiplication
    rw [to_uint64_mul]
    simp only [IntType.read, Nat.mod_eq_of_lt h1, Nat.mod_eq_of_lt h2]
    have hc : ((to_uint64 ((s.v_src1 : Int) * (s.v_src2 : Int)) : Nat) : Int)
        = ((s.v_src1 * s.v_src2 : Nat) : Int) := by
      rw [to_uint64_cast]
      push_cast
      have hb' : ((s.v_src1 : Int) * (s.v_src2 : Int)) < 2 ^ 64 := by exact_mod_cast hb
      have hn : (0 : Int) ≤ (s.v_src1 : Int) * (s.v_src2 : Int) := by positivity
      exact Int.emod_eq_of_lt hn hb'
    exact_mod_cast hc
  have hm : s.execute_mult.get_v_dst = mips_multiplication .int32 s.v_src1 s.v_src2 := rfl
  have hmu : s.execute_multu.get_v_dst = mips_multiplication .uint32 s.v_src1 s.v_src2 := rfl
  refine ⟨hs, hu, hm.trans hs, hmu.trans hu, ?_, ?_, ?_, ?_⟩
  · rw [hm, hs]; exact to_uint64_mul_low _ _
  · rw [hmu, hu]
  · rw [hm, hs]
  · rw [hmu, hu]

/-- Witness for C2: the product of `0xFFFFFFFF` (that is -1) and 3. -/
theorem mult_exact_product_witness :
    (0xFFFFFFFF < 2 ^ 32 ∧ 3 < 2 ^ 32) ∧
    ({ v_src1 := 0xFFFFFFFF, v_src2 := 3 } : MIPSInstr).execute_mult.get_v_dst % 2 ^ 32
      = (0xFFFFFFFF * 3) % 2 ^ 32 ∧
    ({ v_src1 := 0xFFFFFFFF, v_src2 := 3 } : MIPSInstr).execute_multu.get_v_dst
      = 0xFFFFFFFF * 3 :=
  have h := mult_exact_product { v_src1 := 0xFFFFFFFF, v_src2 := 3 } (by decide) (by decide)
  ⟨by decide, h.2.2.2.2.1, h.2.2.2.1⟩

theorem to_uint32_natCast (n : Nat) (h : n < 2 ^ 32) : to_uint32 (n : Int) = n := by
  unfold to_uint32
  omega

theorem unpack_low (hi lo : Nat) (h : lo < 2 ^ 32) : (hi * 2 ^ 32 + lo) % 2 ^ 32 = lo := by
  omega

theorem unpack_high (hi lo : Nat) (h : lo < 2 ^ 32) : (hi * 2 ^ 32 + lo) / 2 ^ 32 = hi := by
  omega

/-- The packed halves of a signed division recombine to the dividend. -/
theorem signed_quot_rem_recombine (x y : Nat) :
    (to_uint32 (Int.tdiv (to_int32 x) (to_int32 y)) * y
      + to_uint32 (Int.tmod (to_int32 x) (to_int32 y))) % 2 ^ 32 = x % 2 ^ 32 := by
  have hq := Int.mod_modEq (Int.tdiv (to_int32 x) (to_int32 y)) (2 ^ 32)
  have hr := Int.mod_modEq (Int.tmod (to_int32 x) (to_int32 y)) (2 ^ 32)
  have hy : (y : Int) ≡ to_int32 y [ZMOD 2 ^ 32] := (to_int32_emod y).symm
  have hx : to_int32 x ≡ (x : Int) [ZMOD 2 ^ 32] := to_int32_emod x
  have hsum := (hq.mul hy).add hr
  have hdiv : Int.tdiv (to_int32 x) (to_int32 y) * to_int32 y
      + Int.tmod (to_int32 x) (to_int32 y) = to_int32 x := by
    rw [mul_comm]; exact Int.tdiv_add_tmod _ _
  rw [hdiv] at hsum
  have h := hsum.trans hx
  unfold Int.ModEq at h
  have hc : (((to_uint32 (Int.tdiv (to_int32 x) (to_int32 y)) * y
      + to_uint32 (Int.tmod (to_int32 x) (to_int32 y))) % 2 ^ 32 : Nat) : Int)
      = ((x % 2 ^ 32 : Nat) : Int) := by
    simp only [Int.natCast_mod, Nat.cast_mul, Nat.cast_add, Nat.cast_pow, Nat.cast_ofNat,
      to_uint32_cast]
    exact h
  exact_mod_cast hc

/-- C3: for 32-bit `x` and 32-bit `y != 0` the result of `mips_division<T>(x, y)`
is packed {LO = quotient, HI = remainder}: the low 32 bits are the quotient
truncated toward zero, reduced mod 2^32, the high 32 bits the matching
remainder, and `quot * y + rem = x` modulo 2^32; the operands are read as
signed by `execute_div` and as unsigned by `execute_divu`. The signed division
of `0x80000000` by `0xFFFFFFFF` gives LO = `0x80000000` and HI = 0. -/
theorem division_packs_quot_rem (s : MIPSInstr) (h1 : s.v_src1 < 2 ^ 32)
    (h2 : s.v_src2 < 2 ^ 32) (h0 : s.v_src2 ≠ 0) :
    s.execute_div.get_v_dst = mips_division .int32 s.v_src1 s.v_src2 ∧
    s.execute_div.get_v_dst % 2 ^ 32
      = to_uint32 (Int.tdiv (to_int32 s.v_src1) (to_int32 s.v_src2)) ∧
    s.execute_div.get_v_dst / 2 ^ 32
      = to_uint32 (Int.tmod (to_int32 s.v_src1) (to_int32 s.v_src2)) ∧
    ((s.execute_div.get_v_dst % 2 ^ 32) * s.v_src2 + s.execute_div.get_v_dst / 2 ^ 32) % 2 ^ 32
      = s.v_src1 ∧
    s.execute_divu.get_v_dst = mips_division .uint32 s.v_src1 s.v_src2 ∧
    s.execute_divu.get_v_dst % 2 ^ 32 = s.v_src1 / s.v_src2 ∧
    s.execute_divu.get_v_dst / 2 ^ 32 = s.v_src1 % s.v_src2 ∧
    ((s.execute_divu.get_v_dst % 2 ^ 32) * s.v_src2 + s.execute_divu.get_v_dst / 2 ^ 32) % 2 ^ 32
      = s.v_src1 ∧
    mips_division .int32 0x80000000 0xFFFFFFFF % 2 ^ 32 = 0x80000000 ∧
    mips_division .int32 0x80000000 0xFFFFFFFF / 2 ^ 32 = 0 := by
  have hs0 : IntType.read .int32 s.v_src2 ≠ 0 := fun h => h0 ((to_int32_eq_zero _ h2).mp h)
  have hu0 : IntType.read .uint32 s.v_src2 ≠ 0 := by
    simp only [IntType.read, Nat.mod_eq_of_lt h2]
    exact_mod_cast h0
  have hd : s.execute_div.get_v_dst
      = to_uint32 (Int.tmod (to_int32 s.v_src1) (to_int32 s.v_src2)) * 2 ^ 32
        + to_uint32 (Int.tdiv (to_int32 s.v_src1) (to_int32 s.v_src2)) :=
    mips_division_unpack .int32 _ _ hs0
  have hu : s.execute_divu.get_v_dst = s.v_src1 % s.v_src2 * 2 ^ 32 + s.v_src1 / s.v_src2 := by
    have h := mips_division_unpack .uint32 s.v_src1 s.v_src2 hu0
    simp only [IntType.read, Nat.mod_eq_of_lt h1, Nat.mod_eq_of_lt h2] at h
    rw [← Int.ofNat_tmod, ← Int.ofNat_tdiv, to_uint32_natCast _ (by
        have := Nat.mod_lt s.v_src1 (Nat.pos_of_ne_zero h0); omega),
      to_uint32_natCast _ (by
        have := Nat.div_le_self s.v_src1 s.v_src2; omega)] at h
    exact h
  have hq := to_uint32_lt (Int.tdiv (to_int32 s.v_src1) (to_int32 s.v_src2))
  have hdl : s.execute_div.get_v_dst % 2 ^ 32
      = to_uint32 (Int.tdiv (to_int32 s.v_src1) (to_int32 s.v_src2)) := by
    rw [hd]; exact unpack_low _ _ hq
  have hdh : s.execute_div.get_v_dst / 2 ^ 32
      = to_uint32 (Int.tmod (to_int32 s.v_src1) (to_int32 s.v_src2)) := by
    rw [hd]; exact unpack_high _ _ hq
  have hqu : s.v_src1 / s.v_src2 < 2 ^ 32 := by
    have := Nat.div_le_self s.v_src1 s.v_src2; omega
  have hru : s.v_src1 % s.v_src2 < 2 ^ 32 := by
    have := Nat.mod_lt s.v_src1 (Nat.pos_of_ne_zero h0); omega
  have hul : s.execute_divu.get_v_dst % 2 ^ 32 = s.v_src1 / s.v_src2 := by
    rw [hu]; exact unpack_low _ _ hqu
  have huh : s.execute_divu.get_v_dst / 2 ^ 32 = s.v_src1 % s.v_src2 := by
    rw [hu]; exact unpack_high _ _ hqu
  refine ⟨rfl, hdl, hdh, ?_, rfl, hul, huh, ?_, by decide, by decide⟩
  · rw [hdl, hdh, signed_quot_rem_recombine, Nat.mod_eq_of_lt h1]
  · rw [hul, huh, Nat.div_add_mod' s.v_src1 s.v_src2, Nat.mod_eq_of_lt h1]

/-- Witness for C3: -7 divided by 2 is -3 with remainder -1; unsigned,
`0xFFFFFFF9` divided by 2. -/
theorem division_packs_quot_rem_witness :
    (0xFFFFFFF9 < 2 ^ 32 ∧ 2 < 2 ^ 32 ∧ 2 ≠ 0) ∧
    ({ v_src1 := 0xFFFFFFF9, v_src2 := 2 } : MIPSInstr).execute_div.get_v_dst % 2 ^ 32
      = to_uint32 (Int.tdiv (to_int32 0xFFFFFFF9) (to_int32 2)) :=
  ⟨by decide,
   (division_packs_quot_rem { v_src1 := 0xFFFFFFF9, v_src2 := 2 }
      (by decide) (by decide) (by decide)).2.1⟩

/-! ## Branches and jumps -/

/-- Adding the converted displacement in address arithmetic. -/
theorem branch_target_cast (a : Nat) (d : Int) :
    (((a + to_uint32 (sign_extend d * 4)) % 2 ^ 32 : Nat) : Int)
      = ((a : Int) + 4 * sign_extend d) % 2 ^ 32 := by
  simp only [Int.natCast_mod, Nat.cast_add, Nat.cast_pow, Nat.cast_ofNat, to_uint32_cast,
    sign_extend]
  omega

theorem branch_target_pos (a d : Nat) (hd : d < 2 ^ 15) :
    (a + to_uint32 (sign_extend (to_int16 d) * 4)) % 2 ^ 32 = (a + 4 * d) % 2 ^ 32 := by
  have h := branch_target_cast a (to_int16 d)
  have hd' : to_int16 d = (d : Int) := by
    unfold to_int16
    have h1 : d % 2 ^ 16 = d := Nat.mod_eq_of_lt (by omega)
    rw [h1, if_pos hd]
  rw [hd'] at h ⊢
  simp only [sign_extend] at h ⊢
  omega

theorem branch_target_minus_one (a : Nat) :
    (a + to_uint32 (sign_extend (to_int16 0xFFFF) * 4)) % 2 ^ 32 = (a + (2 ^ 32 - 4)) % 2 ^ 32 := by
  have h : to_uint32 (sign_extend (to_int16 0xFFFF) * 4) = 2 ^ 32 - 4 := by decide
  rw [h]

theorem execute_branch_taken (p : Predicate) (s : MIPSInstr) (h : p s = true) :
    s.execute_branch p =
      { s with _is_jump_taken := true,
               new_PC := (s.new_PC + to_uint32 (sign_extend (to_int16 s.v_imm) * 4)) % 2 ^ 32 } := by
  simp [MIPSInstr.execute_branch, h]

theorem execute_branch_not_taken (p : Predicate) (s : MIPSInstr) (h : p s = false) :
    s.execute_branch p = { s with _is_jump_taken := false } := by
  simp [MIPSInstr.execute_branch, h]

theorem execute_branch_and_link_taken (p : Predicate) (s : MIPSInstr) (h : p s = true) :
    s.execute_branch_and_link p =
      { s with _is_jump_taken := true, v_dst := s.new_PC,
               new_PC := (s.new_PC + to_uint32 (sign_extend (to_int16 s.v_imm) * 4)) % 2 ^ 32 } := by
  simp [MIPSInstr.execute_branch_and_link, h]

theorem execute_branch_and_link_not_taken (p : Predicate) (s : MIPSInstr) (h : p s = false) :
    s.execute_branch_and_link p = { s with _is_jump_taken := false } := by
  simp [MIPSInstr.execute_branch_and_link, h]

/-- C4: for every predicate `p`, every immediate and every entry state,
`execute_branch<p>` sets `is_jump_taken` to the value of `p` on the entry
state; when `p` holds, `new_PC` becomes the old `new_PC` plus 4 times the
sign-extended low 16 bits of `v_imm`, in 32-bit address arithmetic; when `p`
does not hold, `new_PC` is unchanged. With `new_PC = PC + 4` on entry a taken
branch with immediate 1 yields `new_PC = PC + 8`, and a taken branch with
immediate `0xFFFF` (displacement -1) yields `new_PC = PC`. -/
theorem branch_sets_taken_and_target (p : Predicate) (s : MIPSInstr) (hw : s.wf) :
    (s.execute_branch p).is_jump_taken = p s ∧
    (p s = true →
      (((s.execute_branch p).get_new_PC : Nat) : Int)
        = ((s.new_PC : Int) + 4 * sign_extend (to_int16 s.v_imm)) % 2 ^ 32) ∧
    (p s = false → (s.execute_branch p).get_new_PC = s.new_PC) ∧
    (p s = true → s.new_PC = (s.PC + 4) % 2 ^ 32 → s.v_imm = 1 →
      (s.execute_branch p).get_new_PC = (s.PC + 8) % 2 ^ 32) ∧
    (p s = true → s.new_PC = (s.PC + 4) % 2 ^ 32 → s.v_imm = 0xFFFF →
      (s.execute_branch p).get_new_PC = s.PC) := by
  have hpc : s.PC < 2 ^ 32 := hw.2.2.2.2.2.2.2.2.2
  refine ⟨?_, ?_, ?_, ?_, ?_⟩
  · cases h : p s
    · rw [execute_branch_not_taken p s h]; rfl
    · rw [execute_branch_taken p s h]; rfl
  · intro h
    rw [execute_branch_taken p s h]
    exact branch_target_cast _ _
  · intro h
    rw [execute_branch_not_taken p s h]; rfl
  · intro h hn hi
    rw [execute_branch_taken p s h]
    show (s.new_PC + to_uint32 (sign_extend (to_int16 s.v_imm) * 4)) % 2 ^ 32 = _
    rw [hi, branch_target_pos _ 1 (by norm_num), hn]
    omega
  · intro h hn hi
    rw [execute_branch_taken p s h]
    show (s.new_PC + to_uint32 (sign_extend (to_int16 s.v_imm) * 4)) % 2 ^ 32 = _
    rw [hi, branch_target_minus_one, hn]
    omega

/-- Witness for C4: a taken `beq` with displacement -1 at `PC = 0x400000`. -/
theorem branch_sets_taken_and_target_witness :
    ({ v_src1 := 5, v_src2 := 5, v_imm := 0xFFFF, PC := 0x400000,
       new_PC := 0x400004 } : MIPSInstr).wf ∧
    (({ v_src1 := 5, v_src2 := 5, v_imm := 0xFFFF, PC := 0x400000,
        new_PC := 0x400004 } : MIPSInstr).execute_branch MIPSInstr.eq).get_new_PC = 0x400000 :=
  ⟨by decide,
   (branch_sets_taken_and_target MIPSInstr.eq
      { v_src1 := 5, v_src2 := 5, v_imm := 0xFFFF, PC := 0x400000, new_PC := 0x400004 }
      (by decide)).2.2.2.2 (by decide) (by decide) (by decide)⟩

/-- C5: for every `PC` and every 26-bit immediate, `execute_j` and `execute_jal`
set `new_PC = (PC & 0xF0000000) | (v_imm << 2)` and `is_jump_taken = true`;
`execute_jal` and `execute_jalr` set `v_dst` to the value `new_PC` held on
entry, which is `PC + 4` whenever `new_PC` was `PC + 4` on entry; `execute_j`
leaves `v_dst` unchanged. -/
theorem jump_target_and_link (s : MIPSInstr) (hi : s.v_imm < 2 ^ 26) :
    s.execute_j.get_new_PC = (s.PC &&& 0xF0000000) ||| (s.v_imm <<< 2) ∧
    s.execute_j.is_jump_taken = true ∧
    s.execute_j.get_v_dst = s.v_dst ∧
    s.execute_jal.get_new_PC = (s.PC &&& 0xF0000000) ||| (s.v_imm <<< 2) ∧
    s.execute_jal.is_jump_taken = true ∧
    s.execute_jal.get_v_dst = s.new_PC ∧
    s.execute_jalr.get_v_dst = s.new_PC ∧
    (s.new_PC = s.PC + 4 →
      s.execute_jal.get_v_dst = s.PC + 4 ∧ s.execute_jalr.get_v_dst = s.PC + 4) := by
  have hm : (s.v_imm <<< 2) % 2 ^ 32 = s.v_imm <<< 2 := by
    apply Nat.mod_eq_of_lt
    rw [Nat.shiftLeft_eq]
    omega
  refine ⟨?_, rfl, rfl, ?_, rfl, rfl, rfl, fun h => ⟨h, h⟩⟩
  · show (s.PC &&& 0xf0000000) ||| ((s.v_imm <<< 2) % 2 ^ 32) = _
    rw [hm]
  · show (s.PC &&& 0xf0000000) ||| ((s.v_imm <<< 2) % 2 ^ 32) = _
    rw [hm]

/-- Witness for C5: `jal` with immediate `0x100040` at `PC = 0x400000`. -/
theorem jump_target_and_link_witness :
    (0x100040 < 2 ^ 26) ∧
    ({ v_imm := 0x100040, PC := 0x400000, new_PC := 0x400004 } : MIPSInstr).execute_jal.get_new_PC
      = (0x400000 &&& 0xF0000000) ||| (0x100040 <<< 2) ∧
    ({ v_imm := 0x100040, PC := 0x400000, new_PC := 0x400004 } : MIPSInstr).execute_jal.get_v_dst
      = 0x400004 :=
  have h := jump_target_and_link { v_imm := 0x100040, PC := 0x400000, new_PC := 0x400004 }
    (by decide)
  ⟨by decide, h.2.2.2.1, h.2.2.2.2.2.1⟩

/-- The value of `align_up<2>` on a 32-bit argument. -/
theorem align_up_two (v : Nat) (h : v < 2 ^ 32) :
    align_up 2 v = ((v + 3) / 4 * 4) % 2 ^ 32 := by
  unfold align_up
  simp only [Nat.shiftLeft_eq, Nat.shiftRight_eq_div_pow]
  omega

/-- C6, as the claim states it, fails: for `v_src1 = 5` the register jump goes
to 8, while 5 with its two low bits cleared is 4. -/
theorem jr_not_align_down_counterexample :
    ({ v_src1 := 5 } : MIPSInstr).execute_jr.get_new_PC = 8 ∧
    ({ v_src1 := 5 } : MIPSInstr).execute_jalr.get_new_PC = 8 ∧
    spec_align_down_to_4 5 = 4 ∧
    ({ v_src1 := 5 } : MIPSInstr).execute_jr.get_new_PC ≠ spec_align_down_to_4 5 := by
  decide

/-- C6, amended: for every 32-bit `v_src1`, `execute_jr` and `execute_jalr` set
`new_PC = align_up<2>(v_src1)`, the least multiple of 4 that is not below
`v_src1`, reduced mod 2^32; this is `v_src1` with its two low bits cleared,
hence `v_src1` itself, when `v_src1` is a multiple of 4. Both set
`is_jump_taken` to true. -/
theorem jr_aligns_up (s : MIPSInstr) (h : s.v_src1 < 2 ^ 32) :
    s.execute_jr.get_new_PC = ((s.v_src1 + 3) / 4 * 4) % 2 ^ 32 ∧
    s.execute_jalr.get_new_PC = ((s.v_src1 + 3) / 4 * 4) % 2 ^ 32 ∧
    s.execute_jr.is_jump_taken = true ∧
    s.execute_jalr.is_jump_taken = true ∧
    (4 ∣ (s.v_src1 + 3) / 4 * 4 ∧ s.v_src1 ≤ (s.v_src1 + 3) / 4 * 4 ∧
      ∀ m, 4 ∣ m → s.v_src1 ≤ m → (s.v_src1 + 3) / 4 * 4 ≤ m) ∧
    (s.v_src1 % 4 = 0 →
      s.execute_jr.get_new_PC = spec_align_down_to_4 s.v_src1 ∧
      s.execute_jalr.get_new_PC = spec_align_down_to_4 s.v_src1 ∧
      s.execute_jr.get_new_PC = s.v_src1) := by
  have ha := align_up_two s.v_src1 h
  have hjr : s.execute_jr.get_new_PC = align_up 2 s.v_src1 := rfl
  have hjalr : s.execute_jalr.get_new_PC = align_up 2 s.v_src1 := rfl
  refine ⟨hjr.trans ha, hjalr.trans ha, rfl, rfl, ⟨?_, ?_, ?_⟩, ?_⟩
  · exact Dvd.intro_left _ rfl
  · omega
  · intro m hm hle
    obtain ⟨k, rfl⟩ := hm
    omega
  · intro h4
    rw [hjr, hjalr, ha]
    unfold spec_align_down_to_4
    omega

/-- Witness for C6 amended: a register jump through `0x400102`. -/
theorem jr_aligns_up_witness :
    (0x400102 < 2 ^ 32) ∧
    ({ v_src1 := 0x400102 } : MIPSInstr).execute_jr.get_new_PC
      = ((0x400102 + 3) / 4 * 4) % 2 ^ 32 :=
  ⟨by decide, (jr_aligns_up { v_src1 := 0x400102 } (by decide)).1⟩

/-- C7: for every predicate `p` and every entry state: if `p` does not hold,
`execute_branch_and_link<p>` leaves `v_dst` and `new_PC` unchanged and sets
`is_jump_taken` to false; if `p` holds, it sets `v_dst` to the entry value of
`new_PC` (`PC + 4` when `new_PC` was `PC + 4` on entry), adds 4 times the
sign-extended immediate to `new_PC` in 32-bit address arithmetic, and sets
`is_jump_taken` to true. In both cases every field of the resulting state is
within its machine type. -/
theorem branch_and_link_links_when_taken (p : Predicate) (s : MIPSInstr) (hw : s.wf) :
    (p s = false →
      (s.execute_branch_and_link p).get_v_dst = s.v_dst ∧
      (s.execute_branch_and_link p).get_new_PC = s.new_PC ∧
      (s.execute_branch_and_link p).is_jump_taken = false) ∧
    (p s = true →
      (s.execute_branch_and_link p).get_v_dst = s.new_PC ∧
      (s.new_PC = s.PC + 4 → (s.execute_branch_and_link p).get_v_dst = s.PC + 4) ∧
      (((s.execute_branch_and_link p).get_new_PC : Nat) : Int)
        = ((s.new_PC : Int) + 4 * sign_extend (to_int16 s.v_imm)) % 2 ^ 32 ∧
      (s.execute_branch_and_link p).is_jump_taken = true) ∧
    (s.execute_branch_and_link p).wf := by
  refine ⟨?_, ?_, ?_⟩
  · intro h
    rw [execute_branch_and_link_not_taken p s h]
    exact ⟨rfl, rfl, rfl⟩
  · intro h
    rw [execute_branch_and_link_taken p s h]
    exact ⟨rfl, fun h4 => h4, branch_target_cast _ _, rfl⟩
  · obtain ⟨w1, w2, w3, w4, w5, w6, w7, w8, w9, w10⟩ := hw
    cases h : p s
    · rw [execute_branch_and_link_not_taken p s h]
      exact ⟨w1, w2, w3, w4, w5, w6, w7, w8, w9, w10⟩
    · rw [execute_branch_and_link_taken p s h]
      refine ⟨w1, w2, w3, w4, ?_, w6, w7, w8, ?_, w10⟩
      · show s.new_PC < 2 ^ 64
        omega
      · exact Nat.mod_lt _ (by norm_num)

/-- Witness for C7: `bltzal` on a non-negative register is not taken and does
not link. -/
theorem branch_and_link_links_when_taken_witness :
    ({ v_src1 := 3, v_dst := 77, v_imm := 0x10, PC := 0x400000,
       new_PC := 0x400004 } : MIPSInstr).wf ∧
    (({ v_src1 := 3, v_dst := 77, v_imm := 0x10, PC := 0x400000,
        new_PC := 0x400004 } : MIPSInstr).execute_branch_and_link MIPSInstr.ltz).get_v_dst = 77 :=
  ⟨by decide,
   ((branch_and_link_links_when_taken MIPSInstr.ltz
      { v_src1 := 3, v_dst := 77, v_imm := 0x10, PC := 0x400000, new_PC := 0x400004 }
      (by decide)).1 (by decide)).1⟩

/-- The region mask of a jump keeps bits 28 to 31 of a 32-bit address. -/
theorem and_region_mask (x : Nat) (h : x < 2 ^ 32) :
    x &&& 0xf0000000 = x / 2 ^ 28 * 2 ^ 28 := by
  have hm : (0xf0000000 : Nat) = (2 ^ 4 - 1) <<< 28 := by decide
  rw [hm, ← Nat.shiftRight_eq_div_pow, ← Nat.shiftLeft_eq]
  apply Nat.eq_of_testBit_eq
  intro i
  rw [Nat.testBit_and, Nat.testBit_shiftLeft, Nat.testBit_shiftLeft, Nat.testBit_shiftRight,
    Nat.testBit_two_pow_sub_one]
  by_cases hi : i ≥ 28
  · by_cases hj : i < 32
    · have e : 28 + (i - 28) = i := by omega
      have e2 : i - 28 < 4 := by omega
      simp [hi, e, e2]
    · have hx : x.testBit i = false :=
        Nat.testBit_lt_two_pow (lt_of_lt_of_le h (Nat.pow_le_pow_right (by norm_num) (by omega)))
      have e : 28 + (i - 28) = i := by omega
      simp [hx, e]
  · simp [hi]

/-- C8, as the claim states it, fails: `j 0` fetched at `PC = 0x80000000` jumps
to `0x80000000`, not to 0, and is not a halt. -/
theorem j_zero_not_halt_counterexample :
    ({ operation := .OUT_J_JUMP, v_imm := 0, PC := 0x80000000,
       new_PC := 0x80000004 } : MIPSInstr).execute_j.get_new_PC = 0x80000000 ∧
    ({ operation := .OUT_J_JUMP, v_imm := 0, PC := 0x80000000,
       new_PC := 0x80000004 } : MIPSInstr).execute_j.is_halt = false := by
  decide

/-- C8, amended: `j 0` halts from every `PC` whose four high bits are zero: for
every 32-bit `PC`, an instruction of class J-jump with immediate 0 has
`new_PC = PC & 0xF0000000` after `execute_j`, so `is_halt()` holds after
`execute_j` exactly when `PC < 2^28`. -/
theorem j_zero_halts_in_low_region (s : MIPSInstr) (hop : s.operation = .OUT_J_JUMP)
    (hi : s.v_imm = 0) (hpc : s.PC < 2 ^ 32) :
    s.execute_j.is_jump = true ∧
    s.execute_j.get_new_PC = s.PC &&& 0xF0000000 ∧
    (s.PC < 2 ^ 28 → s.execute_j.get_new_PC = 0 ∧ s.execute_j.is_halt = true) ∧
    (s.execute_j.is_halt = true ↔ s.PC < 2 ^ 28) := by
  have hj : s.execute_j.is_jump = true := by
    simp [MIPSInstr.execute_j, MIPSInstr.execute_jump, MIPSInstr.is_jump, hop]
  have hn : s.execute_j.get_new_PC = s.PC &&& 0xF0000000 := by
    show (s.PC &&& 0xf0000000) ||| ((s.v_imm <<< 2) % 2 ^ 32) = _
    rw [hi]
    simp
  have hz : s.execute_j.get_new_PC = 0 ↔ s.PC < 2 ^ 28 := by
    rw [hn, and_region_mask _ hpc]
    omega
  have hh : s.execute_j.is_halt = true ↔ s.PC < 2 ^ 28 := by
    rw [← hz]
    simp only [MIPSInstr.is_halt, hj, Bool.true_and, beq_iff_eq, MIPSInstr.get_new_PC]
  exact ⟨hj, hn, fun h => ⟨hz.mpr h, hh.mpr h⟩, hh⟩

/-- Witness for C8 amended: `j 0` fetched at `PC = 0x400000` halts. -/
theorem j_zero_halts_in_low_region_witness :
    (0x400000 < 2 ^ 32) ∧
    ({ operation := .OUT_J_JUMP, v_imm := 0, PC := 0x400000,
       new_PC := 0x400004 } : MIPSInstr).execute_j.is_halt = true :=
  ⟨by decide,
   ((j_zero_halts_in_low_region
      { operation := .OUT_J_JUMP, v_imm := 0, PC := 0x400000, new_PC := 0x400004 }
      rfl rfl (by decide)).2.2.1 (by decide)).2⟩

/-! ## The memory stage -/

theorem clock_flushed_some {Instr BPInterface Memory : Type} (isa : ISA Instr BPInterface Memory)
    (inp : MemIn Instr Memory) (cycle : Nat) (instr : Instr)
    (hf : inp.rp_flush cycle = some true) (hd : inp.rp_datapath cycle = some instr) :
    Mem.clock isa inp cycle =
      { trace := [.read_flush cycle, .read_datapath cycle,
                  .write (.MEMORY_2_BYPASSING_UNIT_FLUSH_NOTIFY instr) cycle],
        memory := inp.memory } := by
  simp [Mem.clock, Mem.is_flush, hf, hd]

theorem clock_flushed_none {Instr BPInterface Memory : Type} (isa : ISA Instr BPInterface Memory)
    (inp : MemIn Instr Memory) (cycle : Nat)
    (hf : inp.rp_flush cycle = some true) (hd : inp.rp_datapath cycle = none) :
    Mem.clock isa inp cycle = { trace := [.read_flush cycle], memory := inp.memory } := by
  simp [Mem.clock, Mem.is_flush, hf, hd]

/-- C9, as the claim states it, fails: in a cycle without flush the memory stage
receives an instruction that is a misprediction (predicted taken, actually not
taken) but not a jump, and writes neither to `MEMORY_2_ALL_FLUSH` nor to
`MEMORY_2_FETCH_TARGET`. -/
theorem mispredicted_non_jump_counterexample :
    Mem.is_flush arrival_without_flush 7 = false ∧
    arrival_without_flush.rp_datapath 7 = some addu_predicted_taken ∧
    mips_idle.is_misprediction addu_predicted_taken = true ∧
    PortWrite.MEMORY_2_ALL_FLUSH true
      ∉ writes (Mem.clock mips_idle arrival_without_flush 7).trace ∧
    PortWrite.MEMORY_2_FETCH_TARGET 0x400004
      ∉ writes (Mem.clock mips_idle arrival_without_flush 7).trace ∧
    writes (Mem.clock mips_idle arrival_without_flush 7).trace
      = [.MEMORY_2_EXECUTE_BYPASS 12, .MEMORY_2_WRITEBACK addu_predicted_taken] := by
  decide

/-- C9, amended: in every cycle in which `Mem::clock` is not flushed and receives
an instruction for which `is_jump()` and `is_misprediction()` both hold, it
writes `true` onto `MEMORY_2_ALL_FLUSH` and the instruction's `get_new_PC()`
onto `MEMORY_2_FETCH_TARGET` in that cycle. -/
theorem mispredicted_jump_flushes {Instr BPInterface Memory : Type}
    (isa : ISA Instr BPInterface Memory) (inp : MemIn Instr Memory) (cycle : Nat) (instr : Instr)
    (hf : Mem.is_flush inp cycle = false) (hd : inp.rp_datapath cycle = some instr)
    (hj : isa.is_jump instr = true) (hm : isa.is_misprediction instr = true) :
    Event.write (.MEMORY_2_ALL_FLUSH true) cycle ∈ (Mem.clock isa inp cycle).trace ∧
    Event.write (.MEMORY_2_FETCH_TARGET (isa.get_new_PC instr)) cycle
      ∈ (Mem.clock isa inp cycle).trace ∧
    writes (Mem.clock isa inp cycle).trace =
      [.MEMORY_2_FETCH (isa.get_bp_upd instr), .MEMORY_2_ALL_FLUSH true,
       .MEMORY_2_FETCH_TARGET (isa.get_new_PC instr),
       .MEMORY_2_EXECUTE_BYPASS (isa.get_bypassing_data (isa.load_store inp.memory instr).2),
       .MEMORY_2_WRITEBACK (isa.load_store inp.memory instr).2] := by
  unfold Mem.is_flush at hf
  cases hr : inp.rp_flush cycle with
  | none => simp [Mem.clock, Mem.is_flush, hr, hd, hj, hm, writes]
  | some b =>
    rw [hr] at hf
    subst hf
    simp [Mem.clock, Mem.is_flush, hr, hd, hj, hm, writes]

/-- Witness for C9 amended: a taken branch that was predicted not taken. -/
theorem mispredicted_jump_flushes_witness :
    (Mem.is_flush arrival_of_branch 7 = false ∧
      arrival_of_branch.rp_datapath 7 = some beq_predicted_not_taken ∧
      mips_idle.is_jump beq_predicted_not_taken = true ∧
      mips_idle.is_misprediction beq_predicted_not_taken
        = true) ∧
    Event.write (.MEMORY_2_ALL_FLUSH true) 7
      ∈ (Mem.clock mips_idle arrival_of_branch 7).trace ∧
    Event.write (.MEMORY_2_FETCH_TARGET 0x400104) 7
      ∈ (Mem.clock mips_idle arrival_of_branch 7).trace :=
  have h := mispredicted_jump_flushes mips_idle arrival_of_branch 7
    beq_predicted_not_taken rfl rfl rfl rfl
  ⟨⟨rfl, rfl, rfl, rfl⟩, h.1, h.2.1⟩

/-- C10: in every cycle in which `Mem::clock` reads a true flush signal it
forwards nothing downstream: it writes nothing to `MEMORY_2_WRITEBACK`, to the
bypass port, to the branch-predictor update port, to `MEMORY_2_ALL_FLUSH` or to
`MEMORY_2_FETCH_TARGET`, and it does not call `load_store`, so the functional
memory is unchanged; if an instruction is ready on `EXECUTE_2_MEMORY` it is
consumed and written, unmodified and exactly once, to
`MEMORY_2_BYPASSING_UNIT_FLUSH_NOTIFY`, and if none is ready no port is written
at all. -/
theorem flushed_forwards_nothing {Instr BPInterface Memory : Type}
    (isa : ISA Instr BPInterface Memory) (inp : MemIn Instr Memory) (cycle : Nat)
    (hf : inp.rp_flush cycle = some true) :
    (∀ i, PortWrite.MEMORY_2_WRITEBACK i ∉ writes (Mem.clock isa inp cycle).trace) ∧
    (∀ d, PortWrite.MEMORY_2_EXECUTE_BYPASS d ∉ writes (Mem.clock isa inp cycle).trace) ∧
    (∀ u, PortWrite.MEMORY_2_FETCH u ∉ writes (Mem.clock isa inp cycle).trace) ∧
    (∀ b, PortWrite.MEMORY_2_ALL_FLUSH b ∉ writes (Mem.clock isa inp cycle).trace) ∧
    (∀ a, PortWrite.MEMORY_2_FETCH_TARGET a ∉ writes (Mem.clock isa inp cycle).trace) ∧
    load_store_calls (Mem.clock isa inp cycle).trace = [] ∧
    (Mem.clock isa inp cycle).memory = inp.memory ∧
    (∀ instr, inp.rp_datapath cycle = some instr →
      (Mem.clock isa inp cycle).trace
        = [.read_flush cycle, .read_datapath cycle,
           .write (.MEMORY_2_BYPASSING_UNIT_FLUSH_NOTIFY instr) cycle] ∧
      writes (Mem.clock isa inp cycle).trace = [.MEMORY_2_BYPASSING_UNIT_FLUSH_NOTIFY instr]) ∧
    (inp.rp_datapath cycle = none →
      (Mem.clock isa inp cycle).trace = [.read_flush cycle] ∧
      writes (Mem.clock isa inp cycle).trace = []) := by
  cases hd : inp.rp_datapath cycle with
  | none =>
    rw [clock_flushed_none isa inp cycle hf hd]
    simp [writes, load_store_calls]
  | some instr =>
    rw [clock_flushed_some isa inp cycle instr hf hd]
    simp [writes, load_store_calls]

/-- Witness for C10: an instruction arriving under a true flush signal is only
reported to the bypassing unit. -/
theorem flushed_forwards_nothing_witness :
    arrival_under_flush.rp_flush 7 = some true ∧
    writes (Mem.clock mips_idle arrival_under_flush 7).trace
      = [.MEMORY_2_BYPASSING_UNIT_FLUSH_NOTIFY addu_predicted_taken] :=
  ⟨rfl,
   ((flushed_forwards_nothing mips_idle arrival_under_flush 7 rfl).2.2.2.2.2.2.2.1
      addu_predicted_taken rfl).2⟩

/-- C11: in every cycle in which the flush signal is absent or false and an
instruction is ready on `EXECUTE_2_MEMORY`, `Mem::clock` applies `load_store` to
it exactly once and then writes exactly one value to the bypass port, namely
`get_bypassing_data()` of the instruction after `load_store`, and exactly one
instruction to `MEMORY_2_WRITEBACK`, namely that same instruction after
`load_store`; this holds also when the instruction is a mispredicted jump, and
nothing is written to the flush-notify port. When no instruction is ready and
there is no flush, no port is written. -/
theorem unflushed_instruction_is_forwarded {Instr BPInterface Memory : Type}
    (isa : ISA Instr BPInterface Memory) (inp : MemIn Instr Memory) (cycle : Nat)
    (hf : Mem.is_flush inp cycle = false) :
    (∀ instr, inp.rp_datapath cycle = some instr →
      load_store_calls (Mem.clock isa inp cycle).trace = [instr] ∧
      (Mem.clock isa inp cycle).memory = (isa.load_store inp.memory instr).1 ∧
      bypass_values (writes (Mem.clock isa inp cycle).trace)
        = [isa.get_bypassing_data (isa.load_store inp.memory instr).2] ∧
      writeback_values (writes (Mem.clock isa inp cycle).trace)
        = [(isa.load_store inp.memory instr).2] ∧
      flush_notify_values (writes (Mem.clock isa inp cycle).trace) = [] ∧
      (∃ before, (Mem.clock isa inp cycle).trace = before ++
        [.load_store instr,
         .write (.MEMORY_2_EXECUTE_BYPASS
            (isa.get_bypassing_data (isa.load_store inp.memory instr).2)) cycle,
         .write (.MEMORY_2_WRITEBACK (isa.load_store inp.memory instr).2) cycle]) ∧
      (isa.is_jump instr = true → isa.is_misprediction instr = true →
        writes (Mem.clock isa inp cycle).trace =
          [.MEMORY_2_FETCH (isa.get_bp_upd instr), .MEMORY_2_ALL_FLUSH true,
           .MEMORY_2_FETCH_TARGET (isa.get_new_PC instr),
           .MEMORY_2_EXECUTE_BYPASS
             (isa.get_bypassing_data (isa.load_store inp.memory instr).2),
           .MEMORY_2_WRITEBACK (isa.load_store inp.memory instr).2])) ∧
    (inp.rp_datapath cycle = none →
      writes (Mem.clock isa inp cycle).trace = [] ∧
      load_store_calls (Mem.clock isa inp cycle).trace = [] ∧
      (Mem.clock isa inp cycle).memory = inp.memory) := by
  have hf' := hf
  unfold Mem.is_flush at hf'
  constructor
  · intro instr hd
    cases hj : isa.is_jump instr <;> cases hm : isa.is_misprediction instr <;>
      cases hr : inp.rp_flush cycle <;>
      simp_all [Mem.clock, writes, load_store_calls, bypass_values, writeback_values,
        flush_notify_values] <;>
      first
        | exact ⟨[_], rfl⟩
        | exact ⟨[_, _], rfl⟩
        | exact ⟨[_, _, _], rfl⟩
        | exact ⟨[_, _, _, _], rfl⟩
        | exact ⟨[_, _, _, _, _], rfl⟩
  · intro hd
    cases hr : inp.rp_flush cycle <;>
      simp_all [Mem.clock, writes, load_store_calls]

/-- Witness for C11: a mispredicted taken branch is itself forwarded to
Writeback. -/
theorem unflushed_instruction_is_forwarded_witness :
    Mem.is_flush arrival_of_branch 7 = false ∧
    writeback_values (writes (Mem.clock mips_idle arrival_of_branch 7).trace)
      = [beq_predicted_not_taken] ∧
    bypass_values (writes (Mem.clock mips_idle arrival_of_branch 7).trace)
      = [beq_predicted_not_taken.instr.get_bypassing_data] :=
  have h := (unflushed_instruction_is_forwarded mips_idle arrival_of_branch 7 rfl).1
    beq_predicted_not_taken rfl
  ⟨rfl, h.2.2.2.1, h.2.2.1⟩

/-! ## Frame of the executors that are neither jumps nor branches -/

theorem non_jump_executor_frame (p q : Predicate) (e : MIPSInstr → MIPSInstr)
    (he : e ∈ MIPSInstr.non_jump_executors p q) (s : MIPSInstr) :
    (e s).new_PC = s.new_PC ∧ (e s)._is_jump_taken = s._is_jump_taken ∧ (e s).PC = s.PC := by
  simp only [MIPSInstr.non_jump_executors, List.mem_cons, List.mem_nil_iff, or_false] at he
  casesm* _ ∨ _ <;> subst_vars <;>
    first
      | (unfold MIPSInstr.execute_trap; split <;> exact ⟨rfl, rfl, rfl⟩)
      | (cases s; exact ⟨rfl, rfl, rfl⟩)

/-- C12: every executor of an instruction that is neither a jump nor a branch
(`execute_add/sub/addi/addu/subu/addiu`, `mult/multu/div/divu`,
`move/movn/movz`, the shifts, `lui`, `and/or/xor/nor/andi/ori/xori`,
`execute_set<p>`, `execute_trap<q>`, `clo/clz`, `syscall/break`,
`calculate_load_addr/calculate_store_addr`) leaves `new_PC` and `is_jump_taken`
unchanged (and `PC` is constant), so if `new_PC == PC + 4` on entry then
`new_PC == PC + 4` after Execute. -/
theorem non_jump_executors_keep_new_PC (p q : Predicate) (e : MIPSInstr → MIPSInstr)
    (he : e ∈ MIPSInstr.non_jump_executors p q) (s : MIPSInstr) :
    (e s).get_new_PC = s.get_new_PC ∧
    (e s).is_jump_taken = s.is_jump_taken ∧
    (e s).get_PC = s.get_PC ∧
    (s.get_new_PC = s.get_PC + 4 → (e s).get_new_PC = (e s).get_PC + 4) ∧
    (s.get_new_PC = (s.get_PC + 4) % 2 ^ 32 →
      (e s).get_new_PC = ((e s).get_PC + 4) % 2 ^ 32) := by
  obtain ⟨h1, h2, h3⟩ := non_jump_executor_frame p q e he s
  simp only [MIPSInstr.get_new_PC, MIPSInstr.is_jump_taken, MIPSInstr.get_PC]
  refine ⟨h1, h2, h3, ?_, ?_⟩
  · intro h; rw [h1, h3]; exact h
  · intro h; rw [h1, h3]; exact h

/-- Witness for C12: `execute_trap<eq>` on equal operands sets the trap and
keeps `new_PC = PC + 4`. -/
theorem non_jump_executors_keep_new_PC_witness :
    MIPSInstr.execute_trap MIPSInstr.eq ∈ MIPSInstr.non_jump_executors MIPSInstr.lt MIPSInstr.eq ∧
    (({ v_src1 := 5, v_src2 := 5, PC := 0x400000, new_PC := 0x400004 }
        : MIPSInstr).execute_trap MIPSInstr.eq).get_new_PC = 0x400004 ∧
    (({ v_src1 := 5, v_src2 := 5, PC := 0x400000, new_PC := 0x400004 }
        : MIPSInstr).execute_trap MIPSInstr.eq).has_trap = true :=
  ⟨by simp [MIPSInstr.non_jump_executors],
   (non_jump_executors_keep_new_PC MIPSInstr.lt MIPSInstr.eq (MIPSInstr.execute_trap MIPSInstr.eq)
      (by simp [MIPSInstr.non_jump_executors])
      { v_src1 := 5, v_src2 := 5, PC := 0x400000, new_PC := 0x400004 }).1,
   by decide⟩

/-! ## Addition and subtraction -/

/-- The low 32 bits of a wrapped `int32` result stored in `v_dst`. -/
theorem wrap_int32_low (i : Int) : to_uint64 (wrap_int32 i) % 2 ^ 32 = to_uint32 i := by
  have h : ((to_uint64 (wrap_int32 i) % 2 ^ 32 : Nat) : Int) = ((to_uint32 i : Nat) : Int) := by
    simp only [Int.natCast_mod, Nat.cast_pow, Nat.cast_ofNat, to_uint64_cast]
    rw [Int.emod_emod_of_dvd _ (by norm_num : (2 ^ 32 : Int) ∣ 2 ^ 64)]
    unfold wrap_int32
    rw [to_int32_emod, to_uint32_cast, Int.emod_emod_of_dvd _ (dvd_refl _)]
  exact_mod_cast h

theorem to_uint32_congr (i j : Int) (h : i % 2 ^ 32 = j % 2 ^ 32) : to_uint32 i = to_uint32 j := by
  unfold to_uint32
  rw [h]

theorem to_uint32_add_signed (a b : Nat) :
    to_uint32 (to_int32 a + to_int32 b) = (a + b) % 2 ^ 32 := by
  have h : to_uint32 (to_int32 a + to_int32 b) = to_uint32 (((a + b : Nat) : Int)) := by
    apply to_uint32_congr
    rw [Int.add_emod, to_int32_emod, to_int32_emod, ← Int.add_emod]
    norm_cast
  rw [h]
  unfold to_uint32
  omega

theorem to_uint32_sub_signed (a b : Nat) :
    to_uint32 (to_int32 a - to_int32 b) = to_uint32 ((a : Int) - (b : Int)) := by
  apply to_uint32_congr
  rw [Int.sub_emod, to_int32_emod, to_int32_emod, ← Int.sub_emod]

theorem to_uint32_add_imm (a : Nat) (d : Int) :
    to_uint32 (to_int32 a + d) = to_uint32 ((a : Int) + d) := by
  apply to_uint32_congr
  rw [Int.add_emod, to_int32_emod, ← Int.add_emod]

/-- C13: the signed add/sub executors silently wrap: for all 32-bit operands,
also those whose signed sum or difference overflows, `execute_add`,
`execute_sub` and `execute_addi` leave the trap flag unchanged and leave in the
low 32 bits of `v_dst` the two's-complement results `(v_src1 + v_src2) mod 2^32`,
`(v_src1 - v_src2) mod 2^32` and
`(v_src1 + sign_extend(low 16 bits of v_imm)) mod 2^32`. -/
theorem signed_add_sub_wrap_silently (s : MIPSInstr) (h1 : s.v_src1 < 2 ^ 32)
    (h2 : s.v_src2 < 2 ^ 32) :
    s.execute_add.trap = s.trap ∧ s.execute_sub.trap = s.trap ∧ s.execute_addi.trap = s.trap ∧
    s.execute_add.has_trap = s.has_trap ∧ s.execute_sub.has_trap = s.has_trap ∧
    s.execute_addi.has_trap = s.has_trap ∧
    s.execute_add.get_v_dst % 2 ^ 32 = (s.v_src1 + s.v_src2) % 2 ^ 32 ∧
    s.execute_sub.get_v_dst % 2 ^ 32 = to_uint32 ((s.v_src1 : Int) - (s.v_src2 : Int)) ∧
    s.execute_sub.get_v_dst % 2 ^ 32 = (s.v_src1 + 2 ^ 32 - s.v_src2) % 2 ^ 32 ∧
    s.execute_addi.get_v_dst % 2 ^ 32
      = to_uint32 ((s.v_src1 : Int) + sign_extend (to_int16 s.v_imm)) := by
  have hsub : s.execute_sub.get_v_dst % 2 ^ 32 = to_uint32 ((s.v_src1 : Int) - (s.v_src2 : Int)) := by
    show to_uint64 (wrap_int32 (to_int32 s.v_src1 - to_int32 s.v_src2)) % 2 ^ 32 = _
    rw [wrap_int32_low, to_uint32_sub_signed]
  refine ⟨rfl, rfl, rfl, rfl, rfl, rfl, ?_, hsub, ?_, ?_⟩
  · show to_uint64 (wrap_int32 (to_int32 s.v_src1 + to_int32 s.v_src2)) % 2 ^ 32 = _
    rw [wrap_int32_low, to_uint32_add_signed]
  · rw [hsub]
    unfold to_uint32
    omega
  · show to_uint64 (wrap_int32 (to_int32 s.v_src1 + sign_extend (to_int16 s.v_imm))) % 2 ^ 32 = _
    rw [wrap_int32_low, to_uint32_add_imm]

/-- Witness for C13: `0x7FFFFFFF + 1` overflows the signed range and wraps to
`0x80000000` without a trap. -/
theorem signed_add_sub_wrap_silently_witness :
    (0x7FFFFFFF < 2 ^ 32 ∧ 1 < 2 ^ 32) ∧
    ({ v_src1 := 0x7FFFFFFF, v_src2 := 1 } : MIPSInstr).execute_add.get_v_dst % 2 ^ 32
      = (0x7FFFFFFF + 1) % 2 ^ 32 ∧
    ({ v_src1 := 0x7FFFFFFF, v_src2 := 1 } : MIPSInstr).execute_add.has_trap = false :=
  have h := signed_add_sub_wrap_silently { v_src1 := 0x7FFFFFFF, v_src2 := 1 }
    (by decide) (by decide)
  ⟨by decide, h.2.2.2.2.2.2.1, h.2.2.2.1⟩

/-- C14: for all 32-bit `a` and `b`, `execute_addu` on `(v_src1 = a, v_src2 = b)`
followed by `execute_subu` on `(v_src1 = the low 32 bits of that v_dst,
v_src2 = b)` yields `v_dst == a`: `(a + b) - b == a` with wrap-around at
2^32. -/
theorem addu_then_subu_restores (s t : MIPSInstr) (h1 : s.v_src1 < 2 ^ 32)
    (ht1 : t.v_src1 = s.execute_addu.get_v_dst % 2 ^ 32) (ht2 : t.v_src2 = s.v_src2) :
    s.execute_addu.get_v_dst = (s.v_src1 + s.v_src2) % 2 ^ 32 ∧
    t.execute_subu.get_v_dst = s.v_src1 := by
  have ha : s.execute_addu.get_v_dst = (s.v_src1 + s.v_src2) % 2 ^ 32 := rfl
  refine ⟨ha, ?_⟩
  show to_uint32 ((t.v_src1 : Int) - (t.v_src2 : Int)) = s.v_src1
  rw [ht1, ht2, ha]
  unfold to_uint32
  omega

/-- Witness for C14: `0xFFFFFFFF + 2` wraps to 1, and `1 - 2` wraps back to
`0xFFFFFFFF`. -/
theorem addu_then_subu_restores_witness :
    (0xFFFFFFFF < 2 ^ 32 ∧
      1 = ({ v_src1 := 0xFFFFFFFF, v_src2 := 2 } : MIPSInstr).execute_addu.get_v_dst % 2 ^ 32) ∧
    ({ v_src1 := 1, v_src2 := 2 } : MIPSInstr).execute_subu.get_v_dst = 0xFFFFFFFF :=
  ⟨by decide,
   (addu_then_subu_restores { v_src1 := 0xFFFFFFFF, v_src2 := 2 } { v_src1 := 1, v_src2 := 2 }
      (by decide) (by decide) rfl).2⟩

/-! ## Counting leading zeros -/

/-- The top bit of a value below `2 ^ (n + 1)` is set exactly when the value is
at least `2 ^ n`. -/
theorem testBit_top (v n : Nat) (h1 : 2 ^ n ≤ v) (h2 : v < 2 ^ (n + 1)) :
    v.testBit n = true := by
  rw [Nat.testBit_to_div_mod]
  have hd : v / 2 ^ n = 1 := by
    apply Nat.div_eq_of_lt_le
    · omega
    · rw [Nat.pow_succ] at h2; omega
  simp [hd]

/-- The probe `value & i` of the loop, at `i = 2 ^ n`. -/
theorem probe_ne_zero_iff (v n : Nat) (h2 : v < 2 ^ (n + 1)) :
    v &&& 2 ^ n ≠ 0 ↔ 2 ^ n ≤ v := by
  rw [Nat.and_two_pow]
  have hp : 0 < 2 ^ n := Nat.pow_pos (by norm_num)
  constructor
  · intro h
    by_contra hlt
    have hb : v.testBit n = false := Nat.testBit_lt_two_pow (by omega)
    simp [hb] at h
  · intro h
    rw [testBit_top v n h h2]
    simp

theorem log2_eq_of_bounds (v n : Nat) (h1 : 2 ^ n ≤ v) (h2 : v < 2 ^ (n + 1)) :
    Nat.log2 v = n := by
  have hp : 0 < 2 ^ n := Nat.pow_pos (by norm_num)
  have hv : v ≠ 0 := by omega
  have hlt : Nat.log2 v < n + 1 := (Nat.log2_lt hv).mpr h2
  have hge : ¬ Nat.log2 v < n := fun h => by
    have := (Nat.log2_lt hv).mp h
    omega
  omega

/-- The loop of `count_zeros` started at the probe `2 ^ n` on a value below
`2 ^ (n + 1)`. -/
theorem count_zeros_loop_spec (n : Nat) :
    ∀ (v c : Nat), v < 2 ^ (n + 1) → c + n + 1 < 2 ^ 32 →
      count_zeros_loop v (2 ^ n) c = if v = 0 then c + n + 1 else c + (n - Nat.log2 v) := by
  induction n with
  | zero =>
    intro v c hv hc
    rw [count_zeros_loop]
    by_cases h1 : v = 0
    · subst h1
      simp
      rw [count_zeros_loop]
      simp
      omega
    · have hv1 : v = 1 := by omega
      subst hv1
      simp [Nat.log2]
  | succ m ih =>
    intro v c hv hc
    have hp : 0 < 2 ^ (m + 1) := Nat.pow_pos (by norm_num)
    rw [count_zeros_loop, if_pos hp]
    by_cases hge : 2 ^ (m + 1) ≤ v
    · have hprobe := (probe_ne_zero_iff v (m + 1) hv).mpr hge
      rw [if_pos hprobe]
      have hv0 : v ≠ 0 := by omega
      rw [if_neg hv0, log2_eq_of_bounds v (m + 1) hge hv]
      omega
    · have hprobe : ¬ (v &&& 2 ^ (m + 1) ≠ 0) := fun h =>
        hge ((probe_ne_zero_iff v (m + 1) hv).mp h)
      rw [if_neg hprobe]
      have hs : 2 ^ (m + 1) >>> 1 = 2 ^ m := by
        rw [Nat.shiftRight_eq_div_pow, Nat.pow_succ]
        omega
      have hc1 : (c + 1) % 2 ^ 32 = c + 1 := Nat.mod_eq_of_lt (by omega)
      rw [hs, hc1, ih v (c + 1) (by omega) (by omega)]
      by_cases h0 : v = 0
      · simp [h0]; omega
      · rw [if_neg h0, if_neg h0]
        have hl : Nat.log2 v < m + 1 := (Nat.log2_lt h0).mpr (by omega)
        omega

theorem count_zeros_eq (v : Nat) (hv : v < 2 ^ 32) :
    count_zeros v = if v = 0 then 32 else 31 - Nat.log2 v := by
  unfold count_zeros
  have h := count_zeros_loop_spec 31 v 0 (by omega) (by norm_num)
  have e : (0x80000000 : Nat) = 2 ^ 31 := by norm_num
  rw [e, h]
  simp


/-- The count computed by `count_zeros` is the number of leading zero bits:
the bits above the first set bit are clear, and the bit at which the count
stops is set. -/
theorem count_zeros_leading (v : Nat) (hv : v < 2 ^ 32) :
    count_zeros v ≤ 32 ∧
    (∀ j, j < count_zeros v → v.testBit (31 - j) = false) ∧
    (count_zeros v < 32 → v.testBit (31 - count_zeros v) = true) := by
  rw [count_zeros_eq v hv]
  by_cases h0 : v = 0
  · subst h0
    simp
  · rw [if_neg h0]
    have hl : Nat.log2 v < 32 := (Nat.log2_lt h0).mpr hv
    refine ⟨by omega, ?_, ?_⟩
    · intro j hj
      apply Nat.testBit_lt_two_pow
      calc v < 2 ^ (Nat.log2 v + 1) := Nat.lt_log2_self
        _ ≤ 2 ^ (31 - j) := Nat.pow_le_pow_right (by norm_num) (by omega)
    · intro _
      have e : 31 - (31 - Nat.log2 v) = Nat.log2 v := by omega
      rw [e]
      exact testBit_top v (Nat.log2 v) (Nat.log2_self_le h0) Nat.lt_log2_self

theorem bit_not_32 (v : Nat) (hv : v < 2 ^ 32) : bit_not 32 v = 2 ^ 32 - (v + 1) := by
  unfold bit_not
  rw [Nat.mod_eq_of_lt hv]
  omega

/-- Applied to the complement, `count_zeros` counts the leading one bits. -/
theorem count_zeros_complement_leading (v : Nat) (hv : v < 2 ^ 32) :
    count_zeros (bit_not 32 v) ≤ 32 ∧
    (∀ j, j < count_zeros (bit_not 32 v) → v.testBit (31 - j) = true) ∧
    (count_zeros (bit_not 32 v) < 32 → v.testBit (31 - count_zeros (bit_not 32 v)) = false) := by
  have hw : bit_not 32 v < 2 ^ 32 := by rw [bit_not_32 v hv]; omega
  obtain ⟨h1, h2, h3⟩ := count_zeros_leading (bit_not 32 v) hw
  have hb : ∀ i, i < 32 → (bit_not 32 v).testBit i = !v.testBit i := by
    intro i hi
    rw [bit_not_32 v hv, Nat.testBit_two_pow_sub_succ hv]
    simp [hi]
  refine ⟨h1, ?_, ?_⟩
  · intro j hj
    have := h2 j hj
    rw [hb (31 - j) (by omega)] at this
    simpa using this
  · intro hc
    have := h3 hc
    rw [hb _ (by omega)] at this
    simpa using this

/-- C15: for every 32-bit `v`, `count_zeros(v)` is the number of leading zero
bits of `v`: 32 when `v = 0` and `31 - floor(log2 v)` otherwise, always in
0..32; hence `execute_clz` sets `v_dst` to the count of leading zeros of
`v_src1`, with CLZ of 0 = 32, and `execute_clo`, which applies `count_zeros` to
the 32-bit complement of `v_src1`, sets `v_dst` to the count of leading ones of
`v_src1`, with CLO of `0xFFFFFFFF` = 32. -/
theorem count_zeros_counts_leading_zeros (s : MIPSInstr) (h : s.v_src1 < 2 ^ 32) :
    count_zeros s.v_src1 = (if s.v_src1 = 0 then 32 else 31 - Nat.log2 s.v_src1) ∧
    s.execute_clz.get_v_dst = count_zeros s.v_src1 ∧
    s.execute_clz.get_v_dst ≤ 32 ∧
    (∀ j, j < s.execute_clz.get_v_dst → s.v_src1.testBit (31 - j) = false) ∧
    (s.execute_clz.get_v_dst < 32 → s.v_src1.testBit (31 - s.execute_clz.get_v_dst) = true) ∧
    (s.v_src1 = 0 → s.execute_clz.get_v_dst = 32) ∧
    s.execute_clo.get_v_dst = count_zeros (2 ^ 32 - 1 - s.v_src1) ∧
    s.execute_clo.get_v_dst ≤ 32 ∧
    (∀ j, j < s.execute_clo.get_v_dst → s.v_src1.testBit (31 - j) = true) ∧
    (s.execute_clo.get_v_dst < 32 → s.v_src1.testBit (31 - s.execute_clo.get_v_dst) = false) ∧
    (s.v_src1 = 0xFFFFFFFF → s.execute_clo.get_v_dst = 32) := by
  have hz : s.execute_clz.get_v_dst = count_zeros s.v_src1 := rfl
  have ho : s.execute_clo.get_v_dst = count_zeros (bit_not 32 s.v_src1) := rfl
  have he := count_zeros_eq s.v_src1 h
  obtain ⟨z1, z2, z3⟩ := count_zeros_leading s.v_src1 h
  obtain ⟨o1, o2, o3⟩ := count_zeros_complement_leading s.v_src1 h
  have hb : bit_not 32 s.v_src1 = 2 ^ 32 - 1 - s.v_src1 := by
    rw [bit_not_32 _ h]; omega
  refine ⟨he, hz, hz ▸ z1, hz ▸ z2, hz ▸ z3, ?_, hb ▸ ho, ho ▸ o1, ho ▸ o2, ho ▸ o3, ?_⟩
  · intro h0
    rw [hz, he, if_pos h0]
  · intro h1
    rw [ho, hb, h1, count_zeros_eq _ (by norm_num)]
    simp


/-- Witness for C15: `clz` of `0x00010000`. -/
theorem count_zeros_counts_leading_zeros_witness :
    (0x00010000 < 2 ^ 32) ∧
    ({ v_src1 := 0x00010000 } : MIPSInstr).execute_clz.get_v_dst
      = count_zeros ({ v_src1 := 0x00010000 } : MIPSInstr).v_src1 ∧
    ({ v_src1 := 0x00010000 } : MIPSInstr).execute_clz.get_v_dst ≤ 32 :=
  have h := count_zeros_counts_leading_zeros { v_src1 := 0x00010000 } (by decide)
  ⟨by decide, h.2.1, h.2.2.1⟩

/-! ## Boundary of the signed multiplication -/

/-- C16, as the claim states it, fails: `execute_mult` on `0x80000000` and
`0xFFFFFFFF` stores `0x0000000080000000`, not `0x8000000000000000`, and the low
32 bits are `0x80000000`, not 0. -/
theorem mult_int32_min_by_minus_one_counterexample :
    ({ v_src1 := 0x80000000, v_src2 := 0xFFFFFFFF } : MIPSInstr).execute_mult.get_v_dst
      = 0x80000000 ∧
    ({ v_src1 := 0x80000000, v_src2 := 0xFFFFFFFF } : MIPSInstr).execute_mult.get_v_dst
      ≠ 0x8000000000000000 ∧
    ({ v_src1 := 0x80000000, v_src2 := 0xFFFFFFFF } : MIPSInstr).execute_mult.get_v_dst % 2 ^ 32
      ≠ 0 := by
  decide

/-- C16, amended: `execute_mult` with `v_src1 = 0x80000000` and
`v_src2 = 0xFFFFFFFF` (INT32_MIN by -1) stores `v_dst = 0x0000000080000000`, the
exact product 2^31, so that LO, the low 32 bits, is `0x80000000` and HI, the
high 32 bits, is 0. -/
theorem mult_int32_min_by_minus_one (s : MIPSInstr) (h1 : s.v_src1 = 0x80000000)
    (h2 : s.v_src2 = 0xFFFFFFFF) :
    s.execute_mult.get_v_dst = 0x0000000080000000 ∧
    s.execute_mult.get_v_dst = 2 ^ 31 ∧
    s.execute_mult.get_v_dst % 2 ^ 32 = 0x80000000 ∧
    s.execute_mult.get_v_dst / 2 ^ 32 = 0 := by
  have h : s.execute_mult.get_v_dst = 0x80000000 := by
    show mips_multiplication .int32 s.v_src1 s.v_src2 = _
    rw [h1, h2]
    decide
  rw [h]
  decide

/-- Witness for C16 amended. -/
theorem mult_int32_min_by_minus_one_witness :
    (({ v_src1 := 0x80000000, v_src2 := 0xFFFFFFFF } : MIPSInstr).v_src1 = 0x80000000 ∧
      ({ v_src1 := 0x80000000, v_src2 := 0xFFFFFFFF } : MIPSInstr).v_src2 = 0xFFFFFFFF) ∧
    ({ v_src1 := 0x80000000, v_src2 := 0xFFFFFFFF } : MIPSInstr).execute_mult.get_v_dst / 2 ^ 32
      = 0 :=
  ⟨⟨rfl, rfl⟩,
   (mult_int32_min_by_minus_one { v_src1 := 0x80000000, v_src2 := 0xFFFFFFFF } rfl rfl).2.2.2⟩

/-! ## Shifts -/

theorem and_31_eq_mod (k : Nat) : k &&& 31 = k % 32 := by
  have e : (31 : Nat) = 2 ^ 5 - 1 := by norm_num
  rw [e, Nat.and_pow_two_sub_one_eq_mod]

/-- C17: shift amounts are masked mod 32: for every 32-bit `v_src1` and every
`v_src2`, also `v_src2 >= 32`, `execute_sllv` leaves in the low 32 bits
of `v_dst` the value `(v_src1 << (v_src2 & 31)) mod 2^32` and `execute_srlv`
leaves `v_src1 >> (v_src2 & 31)`; only the low 5 bits of `v_src2` influence the
result. -/
theorem variable_shift_amount_masked (s : MIPSInstr) (h1 : s.v_src1 < 2 ^ 32) :
    s.execute_sllv.get_v_dst % 2 ^ 32 = (s.v_src1 <<< (s.v_src2 &&& 31)) % 2 ^ 32 ∧
    s.execute_sllv.get_v_dst = (s.v_src1 <<< (s.v_src2 &&& 31)) % 2 ^ 32 ∧
    s.execute_srlv.get_v_dst = s.v_src1 >>> (s.v_src2 &&& 31) ∧
    s.execute_srlv.get_v_dst < 2 ^ 32 ∧
    (s.v_src2 < 32 →
      s.execute_sllv.get_v_dst = (s.v_src1 <<< s.v_src2) % 2 ^ 32 ∧
      s.execute_srlv.get_v_dst = s.v_src1 >>> s.v_src2) ∧
    (∀ t : MIPSInstr, t.v_src1 = s.v_src1 → t.v_src2 &&& 31 = s.v_src2 &&& 31 →
      t.execute_sllv.get_v_dst = s.execute_sllv.get_v_dst ∧
      t.execute_srlv.get_v_dst = s.execute_srlv.get_v_dst) := by
  have hl : ∀ u : MIPSInstr,
      u.execute_sllv.get_v_dst = (u.v_src1 <<< (u.v_src2 &&& 31)) % 2 ^ 32 := by
    intro u
    rw [and_31_eq_mod]
    rfl
  have hr : ∀ u : MIPSInstr, u.execute_srlv.get_v_dst = u.v_src1 >>> (u.v_src2 &&& 31) := by
    intro u
    rw [and_31_eq_mod]
    rfl
  refine ⟨?_, hl s, hr s, ?_, ?_, ?_⟩
  · rw [hl s, Nat.mod_mod]
  · rw [hr s, Nat.shiftRight_eq_div_pow]
    exact lt_of_le_of_lt (Nat.div_le_self _ _) h1
  · intro h32
    have hm : s.v_src2 &&& 31 = s.v_src2 := by
      rw [and_31_eq_mod]; exact Nat.mod_eq_of_lt h32
    constructor
    · rw [hl s, hm]
    · rw [hr s, hm]
  · intro t ht1 ht2
    rw [hl t, hl s, hr t, hr s, ht1, ht2]
    exact ⟨rfl, rfl⟩

/-- Witness for C17: the amount 33 shifts by 1. -/
theorem variable_shift_amount_masked_witness :
    (0x80000001 < 2 ^ 32) ∧
    ({ v_src1 := 0x80000001, v_src2 := 33 } : MIPSInstr).execute_sllv.get_v_dst
      = (0x80000001 <<< (33 &&& 31)) % 2 ^ 32 ∧
    ({ v_src1 := 0x80000001, v_src2 := 33 } : MIPSInstr).execute_srlv.get_v_dst
      = 0x80000001 >>> (33 &&& 31) :=
  have h := variable_shift_amount_masked { v_src1 := 0x80000001, v_src2 := 33 } (by decide)
  ⟨by decide, h.2.1, h.2.2.1⟩

/-- Shifting left by `k` within 32 bits and back clears the top `k` bits. -/
theorem shl_then_shr (x k : Nat) (hk : k ≤ 32) :
    ((x <<< k) % 2 ^ 32) >>> k = x % 2 ^ (32 - k) := by
  have e : (2 : Nat) ^ 32 = 2 ^ (32 - k) * 2 ^ k := by
    rw [← Nat.pow_add]
    congr 1
    omega
  rw [Nat.shiftLeft_eq, Nat.shiftRight_eq_div_pow, e, Nat.mul_mod_mul_right,
    Nat.mul_div_cancel _ (Nat.pow_pos (by norm_num))]

/-- C19: for every 32-bit `x` and every `k` with `0 <= k <= 31`, `execute_sll`
with `shamt = k` on `v_src1 = x`, followed by `execute_srl` with `shamt = k` on
the low 32 bits of that result, yields `v_dst = x` with its top `k` bits
cleared, that is `x mod 2^(32-k)`. -/
theorem sll_then_srl_clears_top_bits (s t : MIPSInstr) (hx : s.v_src1 < 2 ^ 32)
    (hk : s.shamt ≤ 31) (ht1 : t.v_src1 = s.execute_sll.get_v_dst % 2 ^ 32)
    (ht2 : t.shamt = s.shamt) :
    t.execute_srl.get_v_dst = s.v_src1 % 2 ^ (32 - s.shamt) ∧
    (∀ i, t.execute_srl.get_v_dst.testBit i
        = (decide (i < 32 - s.shamt) && s.v_src1.testBit i)) ∧
    (s.shamt = 0 → t.execute_srl.get_v_dst = s.v_src1) := by
  have h : t.execute_srl.get_v_dst = s.v_src1 % 2 ^ (32 - s.shamt) := by
    show t.v_src1 >>> t.shamt = _
    rw [ht1, ht2]
    show ((s.v_src1 <<< s.shamt) % 2 ^ 32 % 2 ^ 32) >>> s.shamt = _
    rw [Nat.mod_mod]
    exact shl_then_shr _ _ (by omega)
  refine ⟨h, fun i => ?_, fun h0 => ?_⟩
  · rw [h, Nat.testBit_mod_two_pow]
  · rw [h, h0]
    exact Nat.mod_eq_of_lt hx

/-- Witness for C19: `0xF000000F` shifted left and right by 4 is `0x0000000F`. -/
theorem sll_then_srl_clears_top_bits_witness :
    (0xF000000F < 2 ^ 32 ∧ 4 ≤ 31) ∧
    ({ v_src1 := 0x000000F0, shamt := 4 } : MIPSInstr).execute_srl.get_v_dst
      = 0xF000000F % 2 ^ (32 - 4) :=
  ⟨by decide,
   (sll_then_srl_clears_top_bits { v_src1 := 0xF000000F, shamt := 4 }
      { v_src1 := 0x000000F0, shamt := 4 } (by decide) (by decide) (by decide) rfl).1⟩

/-! ## The mask of the unaligned loads and stores -/

/-- The modelled `bitmask` has its `n` low bits set, for `n` up to 32. -/
theorem bitmask_low_bits (n : Nat) (hn : n ≤ 32) : bitmask n = 2 ^ n - 1 := by
  unfold bitmask
  have h : 2 ^ n ≤ 2 ^ 32 := Nat.pow_le_pow_right (by norm_num) hn
  have hp : 0 < 2 ^ n := Nat.pow_pos (by norm_num)
  exact Nat.mod_eq_of_lt (by omega)

theorem get_lwrl_mask_eq (bm : Nat → Nat) (hbm : ∀ n, n ≤ 32 → bm n = 2 ^ n - 1)
    (s : MIPSInstr) :
    s.get_lwrl_mask bm = 2 ^ ((4 - s.mem_addr % 4) * 8) - 1 := by
  have h4 : s.mem_addr % 4 < 4 := Nat.mod_lt _ (by norm_num)
  unfold MIPSInstr.get_lwrl_mask
  have e : (((4 + 2 ^ 32 - s.mem_addr % 4) % 2 ^ 32) * 8) % 2 ^ 32 = (4 - s.mem_addr % 4) * 8 := by
    omega
  rw [e, hbm _ (by omega)]

/-- C18: for every `mem_addr`, `get_lwrl_mask()` returns the 32-bit mask whose
`(4 - mem_addr mod 4) * 8` low bits are set and whose other bits are clear,
that is `0xFFFFFFFF`, `0x00FFFFFF`, `0x0000FFFF`, `0x000000FF` for
`mem_addr mod 4 = 0, 1, 2, 3`, as in the comment table of the function
(`bitmask(n)` being the value with the `n` low bits set); the mask is never
0. -/
theorem lwrl_mask_table (bm : Nat → Nat) (hbm : ∀ n, n ≤ 32 → bm n = 2 ^ n - 1)
    (s : MIPSInstr) :
    s.get_lwrl_mask bm = 2 ^ ((4 - s.mem_addr % 4) * 8) - 1 ∧
    (∀ i, (s.get_lwrl_mask bm).testBit i = decide (i < (4 - s.mem_addr % 4) * 8)) ∧
    (s.mem_addr % 4 = 0 → s.get_lwrl_mask bm = 0xFFFFFFFF) ∧
    (s.mem_addr % 4 = 1 → s.get_lwrl_mask bm = 0x00FFFFFF) ∧
    (s.mem_addr % 4 = 2 → s.get_lwrl_mask bm = 0x0000FFFF) ∧
    (s.mem_addr % 4 = 3 → s.get_lwrl_mask bm = 0x000000FF) ∧
    s.get_lwrl_mask bm ≠ 0 ∧
    s.get_lwrl_mask bm < 2 ^ 32 := by
  have he := get_lwrl_mask_eq bm hbm s
  have h4 : s.mem_addr % 4 < 4 := Nat.mod_lt _ (by norm_num)
  refine ⟨he, fun i => ?_, ?_, ?_, ?_, ?_, ?_, ?_⟩
  · rw [he, Nat.testBit_two_pow_sub_one]
  · intro h0; rw [he, h0]; norm_num
  · intro h0; rw [he, h0]; norm_num
  · intro h0; rw [he, h0]; norm_num
  · intro h0; rw [he, h0]; norm_num
  · rw [he]
    interval_cases h0 : s.mem_addr % 4 <;> norm_num
  · rw [he]
    interval_cases h0 : s.mem_addr % 4 <;> norm_num

/-- Witness for C18: the mask at an address with `mem_addr mod 4 = 1`. -/
theorem lwrl_mask_table_witness :
    (∀ n, n ≤ 32 → bitmask n = 2 ^ n - 1) ∧
    ({ mem_addr := 0x10001 } : MIPSInstr).get_lwrl_mask bitmask = 0x00FFFFFF :=
  ⟨bitmask_low_bits,
   (lwrl_mask_table bitmask bitmask_low_bits { mem_addr := 0x10001 }).2.2.2.1 (by decide)⟩

/-! ## Logical operations -/

theorem bit_not_64_of_lt (x : Nat) (hx : x < 2 ^ 32) :
    bit_not 64 x = 2 ^ 32 * 0xFFFFFFFF + bit_not 32 x := by
  unfold bit_not
  rw [Nat.mod_eq_of_lt hx, Nat.mod_eq_of_lt (by omega)]
  omega

/-- C20: for all 32-bit operands, `execute_nor` leaves
`v_dst = 0xFFFFFFFF00000000 | (~(v_src1 | v_src2) & 0xFFFFFFFF)`: the low 32
bits are the bitwise NOT of the OR and the high 32 bits are all ones, so
`v_dst >= 2^32` after every NOR, whereas `execute_and`, `execute_or` and
`execute_xor` on the same operands leave the high 32 bits of `v_dst` zero. -/
theorem nor_sets_high_half (s : MIPSInstr) (h1 : s.v_src1 < 2 ^ 32) (h2 : s.v_src2 < 2 ^ 32) :
    s.execute_nor.get_v_dst
      = 0xFFFFFFFF00000000 ||| (bit_not 32 (s.v_src1 ||| s.v_src2) &&& 0xFFFFFFFF) ∧
    s.execute_nor.get_v_dst % 2 ^ 32 = bit_not 32 (s.v_src1 ||| s.v_src2) ∧
    (∀ i, i < 32 →
      s.execute_nor.get_v_dst.testBit i = !(s.v_src1 ||| s.v_src2).testBit i) ∧
    s.execute_nor.get_v_dst / 2 ^ 32 = 0xFFFFFFFF ∧
    s.execute_nor.get_v_dst ≥ 2 ^ 32 ∧
    s.execute_and.get_v_dst / 2 ^ 32 = 0 ∧
    s.execute_or.get_v_dst / 2 ^ 32 = 0 ∧
    s.execute_xor.get_v_dst / 2 ^ 32 = 0 := by
  have hor : s.v_src1 ||| s.v_src2 < 2 ^ 32 := Nat.or_lt_two_pow h1 h2
  have hand : s.v_src1 &&& s.v_src2 < 2 ^ 32 := Nat.and_lt_two_pow _ h2
  have hxor : s.v_src1 ^^^ s.v_src2 < 2 ^ 32 := Nat.xor_lt_two_pow h1 h2
  have hb : bit_not 32 (s.v_src1 ||| s.v_src2) < 2 ^ 32 := by
    rw [bit_not_32 _ hor]; omega
  have hn : s.execute_nor.get_v_dst
      = 2 ^ 32 * 0xFFFFFFFF + bit_not 32 (s.v_src1 ||| s.v_src2) :=
    bit_not_64_of_lt _ hor
  have hlow : s.execute_nor.get_v_dst % 2 ^ 32 = bit_not 32 (s.v_src1 ||| s.v_src2) := by
    rw [hn]; omega
  refine ⟨?_, hlow, ?_, ?_, ?_, ?_, ?_, ?_⟩
  · have em : (0xFFFFFFFF : Nat) = 2 ^ 32 - 1 := by norm_num
    have eh : (0xFFFFFFFF00000000 : Nat) = 2 ^ 32 * 0xFFFFFFFF := by norm_num
    rw [hn, Nat.mul_add_lt_is_or hb, eh]
    congr 1
    rw [em, Nat.and_pow_two_sub_one_eq_mod, Nat.mod_eq_of_lt hb]
  · intro i hi
    have ht : s.execute_nor.get_v_dst.testBit i
        = (s.execute_nor.get_v_dst % 2 ^ 32).testBit i := by
      rw [Nat.testBit_mod_two_pow]; simp [hi]
    rw [ht, hlow, bit_not_32 _ hor, Nat.testBit_two_pow_sub_succ hor]
    simp [hi]
  · rw [hn]; omega
  · rw [hn]; omega
  · exact Nat.div_eq_of_lt hand
  · exact Nat.div_eq_of_lt hor
  · exact Nat.div_eq_of_lt hxor

/-- Witness for C20: NOR of 5 and 2. -/
theorem nor_sets_high_half_witness :
    (5 < 2 ^ 32 ∧ 2 < 2 ^ 32) ∧
    ({ v_src1 := 5, v_src2 := 2 } : MIPSInstr).execute_nor.get_v_dst / 2 ^ 32 = 0xFFFFFFFF ∧
    ({ v_src1 := 5, v_src2 := 2 } : MIPSInstr).execute_or.get_v_dst / 2 ^ 32 = 0 :=
  have h := nor_sets_high_half { v_src1 := 5, v_src2 := 2 } (by decide) (by decide)
  ⟨by decide, h.2.2.2.1, h.2.2.2.2.2.2.1⟩

/-! ## Alignment of the register jump target -/

/-- C21: for every 32-bit `v`, `align_up<2>(v)`, the target `execute_jr` and
`execute_jalr` jump to, is a multiple of 4 and equals the least multiple of 4
that is `>= v`, reduced mod 2^32: it is `v` itself when `v` is a multiple of 4
(a jump through an aligned register lands on that address, and `align_up<2>` is
idempotent), and it is 0 for `v` in `0xFFFFFFFD..0xFFFFFFFF`, in which case
`is_halt()` is true after a register jump. -/
theorem align_up_two_least_multiple (s : MIPSInstr) (h : s.v_src1 < 2 ^ 32) :
    s.execute_jr.get_new_PC = align_up 2 s.v_src1 ∧
    s.execute_jalr.get_new_PC = align_up 2 s.v_src1 ∧
    4 ∣ align_up 2 s.v_src1 ∧
    align_up 2 s.v_src1 = ((s.v_src1 + 3) / 4 * 4) % 2 ^ 32 ∧
    (4 ∣ (s.v_src1 + 3) / 4 * 4 ∧ s.v_src1 ≤ (s.v_src1 + 3) / 4 * 4 ∧
      ∀ m, 4 ∣ m → s.v_src1 ≤ m → (s.v_src1 + 3) / 4 * 4 ≤ m) ∧
    (s.v_src1 % 4 = 0 →
      align_up 2 s.v_src1 = s.v_src1 ∧ s.execute_jr.get_new_PC = s.v_src1 ∧
      s.execute_jalr.get_new_PC = s.v_src1) ∧
    align_up 2 (align_up 2 s.v_src1) = align_up 2 s.v_src1 ∧
    (0xFFFFFFFD ≤ s.v_src1 →
      align_up 2 s.v_src1 = 0 ∧
      (s.operation = .OUT_R_JUMP ∨ s.operation = .OUT_R_JUMP_LINK →
        s.execute_jr.is_halt = true ∧ s.execute_jalr.is_halt = true)) := by
  have ha := align_up_two s.v_src1 h
  have hlt : align_up 2 s.v_src1 < 2 ^ 32 := by rw [ha]; omega
  have hdvd : align_up 2 s.v_src1 % 4 = 0 := by rw [ha]; omega
  refine ⟨rfl, rfl, Nat.dvd_of_mod_eq_zero hdvd, ha, ⟨Dvd.intro_left _ rfl, by omega, ?_⟩,
    ?_, ?_, ?_⟩
  · intro m hm hle
    obtain ⟨k, rfl⟩ := hm
    omega
  · intro h4
    have e : align_up 2 s.v_src1 = s.v_src1 := by rw [ha]; omega
    exact ⟨e, e, e⟩
  · rw [align_up_two _ hlt]
    omega
  · intro hv
    have e : align_up 2 s.v_src1 = 0 := by rw [ha]; omega
    refine ⟨e, fun hop => ?_⟩
    have hjr : s.execute_jr.new_PC = 0 := e
    have hjalr : s.execute_jalr.new_PC = 0 := e
    have hop1 : s.execute_jr.operation = s.operation := rfl
    have hop2 : s.execute_jalr.operation = s.operation := rfl
    rcases hop with hop | hop <;>
      simp [MIPSInstr.is_halt, MIPSInstr.is_jump, hjr, hjalr, hop1, hop2, hop]

/-- Witness for C21: `jr` through a register holding `0xFFFFFFFE` halts. -/
theorem align_up_two_least_multiple_witness :
    (0xFFFFFFFE < 2 ^ 32) ∧
    ({ operation := .OUT_R_JUMP, v_src1 := 0xFFFFFFFE, PC := 0x400000,
       new_PC := 0x400004 } : MIPSInstr).execute_jr.is_halt = true :=
  ⟨by decide,
   (((align_up_two_least_multiple
        { operation := .OUT_R_JUMP, v_src1 := 0xFFFFFFFE, PC := 0x400000, new_PC := 0x400004 }
        (by decide)).2.2.2.2.2.2.2 (by decide)).2 (Or.inl rfl)).1⟩

end MiptMips
